import Mathlib

/-!
# Data Sweeper — verification of the cleaning/validation pipeline

A shallow embedding of the Streamlit application `src/app.py` (the "Data
Sweeper"): an in-memory table of typed, nullable columns, a per-session
mutable state (`current table` + action log), a cleaning pipeline
(deduplication, missing-value treatment, type standardization, text
normalization), read-only validation checks and a CSV export/reload cycle.

The dataframe operations of the source (`drop_duplicates`, `fillna`,
`mean`/`median`/`mode`, `between`, `str.match`, `to_csv`/`read_csv`, ...)
are calls into pandas, an external collaborator of the repository; each is
embedded here by its documented semantics at the granularity the program
uses it, and the embedding choices are recorded in the doc comment of the
corresponding definition.
-/


namespace DataSweeper

/-! ## Data model

A cell is a nullable value: a pandas `NaN` (`null`), a number (pandas
numeric dtypes; embedded as `ℚ` so that exact means/medians exist), a
string, a datetime (embedded as an abstract integer timestamp), or a
boolean (pandas bool dtype, which `read_csv` infers for columns of
`True`/`False` fields).  A column carries its name, its declared dtype and
its cells; a table is the ordered list of its columns. -/


inductive Cell where
  | null : Cell
  | num (q : ℚ) : Cell
  | str (s : String) : Cell
  | dt (t : ℤ) : Cell
  | bool (b : Bool) : Cell
deriving DecidableEq, Repr

inductive ColType where
  | numeric | text | datetime | categorical | boolean
deriving DecidableEq, Repr

structure Column where
  name : String
  dtype : ColType
  cells : List Cell
deriving DecidableEq, Repr

/-- A table is its ordered list of named columns (`st.session_state.df`). -/

abbrev Table := List Column

/-- A row of a table: one cell per column, in column order.  Rows are what
`drop_duplicates` compares. -/

abbrev Row := List Cell

/-- Session state: `st.session_state.df` (None before the first load) and
`st.session_state.logs` (append-only action log). -/

structure SessionState where
  df : Option Table
  logs : List String
deriving DecidableEq, Repr

/-! ## Deduplication (`drop_duplicates`, src/app.py line 88)

`df.drop_duplicates()` removes every row that is equal (in all columns) to
an earlier row, keeping the first occurrence; pandas treats `NaN` as equal
to `NaN` for this purpose, which the decidable equality on `Cell` mirrors
(`Cell.null = Cell.null`). -/


/-- Worker for `dedupe`: `seen` holds the rows already emitted; a row equal
to a seen one is dropped, otherwise it is kept and added to `seen`. -/

def dedupeAux (seen : List Row) : List Row → List Row
  | [] => []
  | r :: rs => if r ∈ seen then dedupeAux seen rs else r :: dedupeAux (r :: seen) rs

/-- `drop_duplicates()` on the rows of a table: keep the first occurrence of
every row, drop later duplicates. -/

def dedupe (rows : List Row) : List Row := dedupeAux [] rows

/-- Spec-side reading of deduplication, from the spec's words: "removes rows
that are exact duplicates of an earlier row (all columns equal) ... first
occurrence kept".  `earlier` accumulates every row already traversed, kept
or not. -/

def firstOccurKeepAux (earlier : List Row) : List Row → List Row
  | [] => []
  | r :: rs =>
    if r ∈ earlier then firstOccurKeepAux (earlier ++ [r]) rs
    else r :: firstOccurKeepAux (earlier ++ [r]) rs

/-- Spec-side deduplication: a row survives iff it is not a duplicate of an
earlier row of the input. -/

def firstOccurKeep (rows : List Row) : List Row := firstOccurKeepAux [] rows

/-! ## Validation checks (src/app.py lines 166-179)

Both checks are read-only and report a count obtained by summing a negated
boolean mask; in pandas, summing a boolean series counts its `True`
entries, which `List.countP` embeds. -/


/-- Count of nulls in a column. -/

def nullCount (cells : List Cell) : ℕ :=
  cells.countP (fun c => decide (c = Cell.null))

/-- `Series.between(lo, hi)` on one cell: inclusive bounds; a `NaN` compares
false on both sides, so `between` is `False` on a null cell. -/

def betweenCell (lo hi : ℚ) : Cell → Bool
  | Cell.num q => decide (lo ≤ q) && decide (q ≤ hi)
  | _ => false

/-- The range check of line 178: `(~df[col].between(min_val, max_val)).sum()`.
Because `between` is `False` on `NaN`, the negated mask is `True` there: a
null cell is counted as a violation. -/

def rangeViolationCount (cells : List Cell) (lo hi : ℚ) : ℕ :=
  cells.countP (fun c => !betweenCell lo hi c)

/-- Spec-side range count, from the spec's words: "reports count of non-null
values falling strictly outside [min, max]" with "null values ... excluded
from the violation count". -/

def specRangeViolationCount (cells : List Cell) (lo hi : ℚ) : ℕ :=
  cells.countP (fun c =>
    match c with
    | Cell.num q => decide (q < lo) || decide (hi < q)
    | _ => false)

/-- `\w` of the source's email regex (ASCII reading of Python's `\w`). -/

def isWordChar (c : Char) : Bool := c.isAlphanum || c = '_'

/-- The character class `[\w\.-]` of the source's email regex. -/

def isLocalChar (c : Char) : Bool := isWordChar c || c = '.' || c = '-'

/-- The email regex of line 171, `^[\w\.-]+@[\w\.-]+\.\w+$`, as a decision
procedure.  Since `@` belongs to no character class of the pattern, a match
splits the string at its unique `@`; since `.` is not a word character, the
backtracking choice of the `\.` is forced to the last `.` of the domain
part.  (Python's `$` would also accept a single trailing newline; a cell
value ending in `'\n'` is outside the scope of every claim checked here.) -/

def emailMatch (s : String) : Bool :=
  let cs := s.data
  let lp := cs.takeWhile (· ≠ '@')
  match cs.dropWhile (· ≠ '@') with
  | [] => false
  | _ :: dom =>
    !lp.isEmpty && lp.all isLocalChar && dom.all isLocalChar &&
    (let tld := dom.reverse.takeWhile (· ≠ '.')
     match dom.reverse.dropWhile (· ≠ '.') with
     | [] => false
     | _ :: rest => !tld.isEmpty && tld.all isWordChar && !rest.isEmpty)

/-- `Series.str.match(pattern, na=False)` on one cell: a string matches or
not; a null gives the fill value `False`; a non-string element of an object
column gives `NaN`, hence also `False` under `na=False`. -/

def emailMatchCell : Cell → Bool
  | Cell.str s => emailMatch s
  | _ => false

/-- The format check of line 172: `(~df[col].str.match(pattern, na=False)).sum()`.
Under `na=False` a null cell's mask entry is `False`, so its negation is
`True`: a null cell is counted as invalid. -/

def emailInvalidCount (cells : List Cell) : ℕ :=
  cells.countP (fun c => !emailMatchCell c)

/-- Spec-side format count, from the spec's words: "reports count of
non-matching non-null values". -/

def specEmailInvalidCount (cells : List Cell) : ℕ :=
  cells.countP (fun c => decide (c ≠ Cell.null) && !emailMatchCell c)

/-! ## Missing-value treatment (src/app.py lines 92-117)

Per selected column, one of `Drop rows` / `Fill with mean` / `Fill with
median` / `Fill with mode`.  The fill value is computed by
`Series.mean()` / `.median()` / `.mode()[0]` and applied by
`Series.fillna(fill_value)`.  `mean`/`median` skip nulls; they succeed on
numeric, boolean (booleans counting as 1/0) and datetime columns (the
mean/median timestamp) and raise `TypeError` on text or categorical data;
on an all-null column they return `NaN`, and `fillna(NaN)` changes
nothing.  `mode()` drops nulls and returns the most frequent values *in
sorted order* (per its documentation), so `mode()[0]` is the least
most-frequent value; on an all-null column `mode()` is empty and
`mode()[0]` raises `KeyError`. -/


/-- The numeric entries of a column, in order (what `mean`/`median` see
after skipping nulls; a boolean counts as 1/0, as in pandas). -/

def numericVals (cells : List Cell) : List ℚ :=
  cells.filterMap (fun c =>
    match c with
    | Cell.num q => some q
    | Cell.bool b => some (if b then 1 else 0)
    | _ => none)

/-- `Series.mean()` of a numeric column: arithmetic mean of the non-null
entries; `none` stands for the `NaN` returned on an all-null column. -/

def colMean (cells : List Cell) : Option ℚ :=
  let vs := numericVals cells
  if vs.isEmpty then none else some (vs.sum / vs.length)

/-- Insertion of one value into a sorted list of rationals. -/

def insertSorted (q : ℚ) : List ℚ → List ℚ
  | [] => [q]
  | x :: xs => if q ≤ x then q :: x :: xs else x :: insertSorted q xs

/-- Insertion sort on rationals (ascending). -/

def sortRat : List ℚ → List ℚ
  | [] => []
  | x :: xs => insertSorted x (sortRat xs)

/-- `Series.median()` of a numeric column: middle of the sorted non-null
entries, or the mean of the two middles for an even count; `none` stands
for the `NaN` returned on an all-null column. -/

def colMedian (cells : List Cell) : Option ℚ :=
  let vs := sortRat (numericVals cells)
  let n := vs.length
  if n = 0 then none
  else if n % 2 = 1 then some (vs.getD (n / 2) 0)
  else some ((vs.getD (n / 2 - 1) 0 + vs.getD (n / 2) 0) / 2)

/-- The timestamp entries of a datetime column, in order. -/

def dtVals (cells : List Cell) : List ℤ :=
  cells.filterMap (fun c => match c with | Cell.dt t => some t | _ => none)

/-- `Series.mean()` of a datetime column: pandas averages the underlying
integer timestamps and rounds to the timestamp grid (the embedding uses
integer division; every claim exercises only exactly-representable
means).  `none` stands for the `NaT` returned on an all-null column. -/

def colMeanDt (cells : List Cell) : Option ℤ :=
  let vs := dtVals cells
  if vs.isEmpty then none else some (vs.sum / (vs.length : ℤ))

/-- Insertion sort on integer timestamps (ascending). -/

def insertSortedDt (q : ℤ) : List ℤ → List ℤ
  | [] => [q]
  | x :: xs => if q ≤ x then q :: x :: xs else x :: insertSortedDt q xs

/-- Worker for `colMedianDt`. -/

def sortDt : List ℤ → List ℤ
  | [] => []
  | x :: xs => insertSortedDt x (sortDt xs)

/-- `Series.median()` of a datetime column: the middle timestamp, or for
an even count the average of the two middles rounded to the timestamp
grid (integer division); `none` stands for `NaT` on an all-null column. -/

def colMedianDt (cells : List Cell) : Option ℤ :=
  let vs := sortDt (dtVals cells)
  let n := vs.length
  if n = 0 then none
  else if n % 2 = 1 then some (vs.getD (n / 2) 0)
  else some ((vs.getD (n / 2 - 1) 0 + vs.getD (n / 2) 0) / 2)

/-- The non-null entries of a column (what `mode()` counts). -/

def nonNullVals (cells : List Cell) : List Cell :=
  cells.filter (fun c => decide (c ≠ Cell.null))

/-- Lexicographic order on character lists, used to embed the sort that
`Series.mode()` performs on string values. -/

def charListLE : List Char → List Char → Bool
  | [], _ => true
  | _ :: _, [] => false
  | a :: as, b :: bs => if a = b then charListLE as bs else decide (a < b)

/-- The order in which `Series.mode()` sorts its result: numeric order on
numbers, lexicographic order on strings, timestamp order on datetimes.  A
mixed pair is never compared on a homogeneous column; on mixed object
columns pandas does not sort the modes at all, which no claim exercises. -/

def cellLE : Cell → Cell → Bool
  | Cell.num p, Cell.num q => decide (p ≤ q)
  | Cell.str s, Cell.str t => charListLE s.data t.data
  | Cell.dt s, Cell.dt t => decide (s ≤ t)
  | _, _ => true

/-- One step of selecting `mode()[0]`: keep whichever of `a`, `b` has the
strictly larger count, and on a count tie the `cellLE`-smaller one (pandas
returns the tied modes sorted, and `[0]` takes the least). -/

def betterMode (vs : List Cell) (a b : Cell) : Cell :=
  if vs.count b > vs.count a then b
  else if vs.count b = vs.count a && cellLE b a then b
  else a

/-- `Series.mode()[0]`: the `cellLE`-least among the most frequent non-null
values; `none` stands for the `KeyError` raised on an all-null column. -/

def modeValue? (cells : List Cell) : Option Cell :=
  let vs := nonNullVals cells
  match vs with
  | [] => none
  | v :: rest => some (rest.foldl (betterMode vs) v)

/-- Spec-side mode, from the spec's words: "Mode selects the first
most-frequent value when there is a tie" — the first value *in appearance
order* achieving the maximal count. -/

def specFirstMode (cells : List Cell) : Option Cell :=
  let vs := nonNullVals cells
  let maxCnt := (vs.map (fun v => vs.count v)).foldl max 0
  vs.find? (fun v => decide (vs.count v = maxCnt))

/-- `Series.fillna(v)`: replace every null by `v`, keep the rest. -/

def fillWith (cells : List Cell) (v : Cell) : List Cell :=
  cells.map (fun c => if c = Cell.null then v else c)

/-- `fillna` with a possibly-`NaN` fill value: `fillna(NaN)` is the
identity. -/

def fillWithOpt (cells : List Cell) : Option Cell → List Cell
  | none => cells
  | some v => fillWith cells v

/-- The user's selection in the `Treatment for {col}` select box. -/

inductive Treatment where
  | dropRows | fillMean | fillMedian | fillMode
deriving DecidableEq, Repr

/-- Errors the missing-value block can raise (uncaught in the source, so
the surrounding framework reports them and the session state keeps its
previous value). -/

inductive MissingError where
  | typeMismatch  -- TypeError from mean()/median() on a non-numeric column
  | noMode        -- KeyError from mode()[0] on an all-null column
deriving DecidableEq, Repr

/-- Look a column up by name, as `df[col]` does. -/

def findCol (t : Table) (name : String) : Option Column :=
  t.find? (fun c => decide (c.name = name))

/-- Replace the cells of the named column, as `df[col] = series` does. -/

def setColCells (t : Table) (name : String) (cells : List Cell) : Table :=
  t.map (fun col => if col.name = name then { col with cells := cells } else col)

/-- The row indices `df.dropna(subset=[col])` keeps: those where the
selected column is non-null. -/

def keepIdx (cells : List Cell) : List ℕ :=
  (List.range cells.length).filter (fun i => decide (cells.getD i Cell.null ≠ Cell.null))

/-- Restriction of a column to a list of row indices. -/

def selectIdx (idx : List ℕ) (cells : List Cell) : List Cell :=
  idx.map (fun i => cells.getD i Cell.null)

/-- `df.dropna(subset=[col])`: drop the whole row wherever the selected
column is null. -/

def dropRowsWhereNull (t : Table) (name : String) : Table :=
  match findCol t name with
  | none => t
  | some c =>
    let idx := keepIdx c.cells
    t.map (fun col => { col with cells := selectIdx idx col.cells })

/-- One missing-value treatment applied to one column of the table
(lines 105-117).  `Series.mean()`/`median()` succeed on numeric and
boolean columns (booleans as 1/0; a bool-dtype pandas column admits no
nulls, so the fill there is vacuous) and on datetime columns (the
mean/median timestamp), and raise `TypeError` on text or categorical
data; `mode()[0]` on an all-null column models its `KeyError`. -/

def applyTreatment (t : Table) (name : String) (tr : Treatment) :
    Except MissingError Table :=
  match findCol t name with
  | none => .ok t
  | some c =>
    match tr with
    | .dropRows => .ok (dropRowsWhereNull t name)
    | .fillMean =>
      if c.dtype = ColType.numeric ∨ c.dtype = ColType.boolean then
        .ok (setColCells t name (fillWithOpt c.cells ((colMean c.cells).map Cell.num)))
      else if c.dtype = ColType.datetime then
        .ok (setColCells t name (fillWithOpt c.cells ((colMeanDt c.cells).map Cell.dt)))
      else .error .typeMismatch
    | .fillMedian =>
      if c.dtype = ColType.numeric ∨ c.dtype = ColType.boolean then
        .ok (setColCells t name (fillWithOpt c.cells ((colMedian c.cells).map Cell.num)))
      else if c.dtype = ColType.datetime then
        .ok (setColCells t name (fillWithOpt c.cells ((colMedianDt c.cells).map Cell.dt)))
      else .error .typeMismatch
    | .fillMode =>
      match modeValue? c.cells with
      | some m => .ok (setColCells t name (fillWith c.cells m))
      | none => .error .noMode

/-- The log message the block appends on success. -/

def missingLogMsg (name : String) : Treatment → String
  | .dropRows => "Dropped rows with missing " ++ name
  | _ => "Filled missing " ++ name

/-- The missing-value block as a session-state step: on success it commits
the new table and appends one log entry; on an (uncaught) error the rerun
leaves `st.session_state` exactly as it was, and the framework reports the
exception once. -/

def missingStep (st : SessionState) (name : String) (tr : Treatment) :
    SessionState × Option MissingError :=
  match st.df with
  | none => (st, none)
  | some t =>
    match applyTreatment t name tr with
    | .ok t2 => ({ df := some t2, logs := st.logs ++ [missingLogMsg name tr] }, none)
    | .error e => (st, some e)

/-- Kind of a cell, for homogeneity hypotheses (a real pandas column holds
values of one kind). -/

def isNumCell : Cell → Bool
  | Cell.num _ => true
  | _ => false

/-- String-kind test on cells. -/

def isStrCell : Cell → Bool
  | Cell.str _ => true
  | _ => false

/-! ## Rendering and parsing of values

Shared by the type-standardization step (`pd.to_numeric`,
`pd.to_datetime`, `astype`) and the CSV export/reload cycle
(`to_csv`/`read_csv`).  Numbers are rendered and parsed through explicit
decimal-digit functions so that the round-trip is provable. -/


/-- Strip leading and trailing whitespace (Python's `str.strip()`). -/

def trimChars (cs : List Char) : List Char :=
  ((cs.dropWhile Char.isWhitespace).reverse.dropWhile Char.isWhitespace).reverse

/-- Value of a digit string, most significant first. -/

def digitsToNat (ds : List Char) : ℕ :=
  ds.foldl (fun a c => a * 10 + (c.toNat - 48)) 0

/-- Decimal digits of `n`, accumulated in front of `acc`. -/

def natToCharsAux : ℕ → List Char → List Char
  | 0, acc => acc
  | n + 1, acc =>
    natToCharsAux ((n + 1) / 10) (Char.ofNat ((n + 1) % 10 + 48) :: acc)
decreasing_by exact Nat.div_lt_self (Nat.succ_pos n) (by norm_num)

/-- Decimal rendering of a natural number. -/

def natToChars (n : ℕ) : List Char :=
  if n = 0 then ['0'] else natToCharsAux n []

/-- Decimal rendering of an integer. -/

def intToChars (i : ℤ) : List Char :=
  if i < 0 then '-' :: natToChars i.natAbs else natToChars i.toNat

/-- Rendering of a rational cell value.  An integral value renders as its
integer digits (pandas renders an int64 column without a decimal point,
and an integral float's `5.0` reads back as the same number).  The
non-integral fallback renders `num/den`; pandas would print a float64
approximation there, which an exact embedding cannot reproduce, so every
claim about rendering is restricted to integral values. -/

def renderRat (q : ℚ) : List Char :=
  if q.den = 1 then intToChars q.num
  else intToChars q.num ++ '/' :: natToChars q.den

/-- Rendering of a datetime cell (abstract timestamp digits). -/

def renderDt (t : ℤ) : List Char := intToChars t

/-- Parse an optional exponent suffix (`e`/`E`, optional sign, digits) and
apply it to `base`; empty input returns `base` unchanged. -/

def parseExpPart (base : ℚ) : List Char → Option ℚ
  | [] => some base
  | e :: rest =>
    if e = 'e' || e = 'E' then
      let signedRest : ℤ × List Char :=
        match rest with
        | '-' :: r => (-1, r)
        | '+' :: r => (1, r)
        | _ => (1, rest)
      let ds := signedRest.2.takeWhile Char.isDigit
      if ds.isEmpty || !(signedRest.2.dropWhile Char.isDigit).isEmpty then none
      else some (base * (10 : ℚ) ^ (signedRest.1 * (digitsToNat ds : ℤ)))
    else none

/-- Split an optional leading sign off a numeric literal. -/

def splitSign (cs : List Char) : ℚ × List Char :=
  match cs with
  | [] => (1, [])
  | c :: rest =>
    if c = '-' then (-1, rest) else if c = '+' then (1, rest) else (1, cs)

/-- The numeric grammar shared by `pd.to_numeric` on strings and the
`read_csv` type sniff: optional sign, digits with an optional fractional
part (at least one digit overall), optional exponent.  (`inf`/`nan`
spellings are handled separately by the reader's NA-value list; exact
rationals cannot represent infinities.) -/

def parseRatChars (cs : List Char) : Option ℚ :=
  let sc := splitSign cs
  let ip := sc.2.takeWhile Char.isDigit
  let cs2 := sc.2.dropWhile Char.isDigit
  if cs2.head? = some '.' then
    let rest2 := cs2.tail
    let fp := rest2.takeWhile Char.isDigit
    let cs3 := rest2.dropWhile Char.isDigit
    if ip.isEmpty && fp.isEmpty then none
    else
      parseExpPart
        (sc.1 * ((digitsToNat ip : ℚ) +
          (digitsToNat fp : ℚ) / (10 : ℚ) ^ fp.length)) cs3
  else
    if ip.isEmpty then none
    else parseExpPart (sc.1 * (digitsToNat ip : ℚ)) cs2

/-- Numeric parse of a raw field: pandas tolerates surrounding whitespace
around numbers, so the field is stripped first. -/

def parseNumField (cs : List Char) : Option ℚ := parseRatChars (trimChars cs)

/-- Modelled from the spec: `pd.to_datetime`'s string parsing, of which the
source only needs "a value either parses as a datetime or the conversion
fails".  The embedding accepts the canonical `YYYY-MM-DD` form and encodes
it as the integer `y*10000 + m*100 + d`. -/

def parseDateChars (cs : List Char) : Option ℤ :=
  match cs with
  | [y1, y2, y3, y4, h1, m1, m2, h2, d1, d2] =>
    if [y1, y2, y3, y4, m1, m2, d1, d2].all Char.isDigit &&
        h1 = '-' && h2 = '-' then
      let m := digitsToNat [m1, m2]
      let d := digitsToNat [d1, d2]
      if 1 ≤ m && m ≤ 12 && 1 ≤ d && d ≤ 31 then
        some ((digitsToNat [y1, y2, y3, y4] : ℤ) * 10000 + m * 100 + d)
      else none
    else none
  | _ => none

/-! ## Text cleaning (src/app.py lines 150-162)

Per text (object-dtype) column, optional `str.strip()` and/or
`str.title()`.  The `.str` accessor maps nulls to nulls and maps
non-string elements of an object column to `NaN`. -/


/-- Python's `str.title()`: the first character of every alphabetic run is
upper-cased, the rest lower-cased. -/

def titleChars : List Char → Bool → List Char
  | [], _ => []
  | c :: cs, prevAlpha =>
    if c.isAlpha then
      (if prevAlpha then c.toLower else c.toUpper) :: titleChars cs true
    else c :: titleChars cs false

/-- `Series.str.strip()` on one cell. -/

def stripCell : Cell → Cell
  | Cell.str s => Cell.str (String.mk (trimChars s.data))
  | _ => Cell.null

/-- `Series.str.title()` on one cell. -/

def titleCell : Cell → Cell
  | Cell.str s => Cell.str (String.mk (titleChars s.data false))
  | _ => Cell.null

/-- `df[col] = df[col].str.f()`: apply a cell map to the named column,
leaving the others as they are (lines 157 and 161). -/

def mapColumn (t : Table) (name : String) (f : Cell → Cell) : Table :=
  t.map (fun col =>
    if col.name = name then { col with cells := col.cells.map f } else col)

/-! ## Type standardization (src/app.py lines 120-147)

Per column, the user picks a target of `Numeric`, `Datetime`, `Category`,
`String` or `Keep as is`; each conversion runs in its own `try`, reports
its own error with `st.error`, and the loop proceeds to the next column. -/


/-- The non-trivial choices of the `dtype_{col}` select box. -/

inductive Target where
  | numeric | datetime | category | text
deriving DecidableEq, Repr

/-- Declared column type after a successful conversion. -/

def targetColType : Target → ColType
  | .numeric => ColType.numeric
  | .datetime => ColType.datetime
  | .category => ColType.categorical
  | .text => ColType.text

/-- Conversion of one cell to a target type; `none` models the exception
pandas raises when the value cannot be parsed into the target type.
`to_numeric` and `to_datetime` pass nulls through; `astype('category')`
keeps values; `astype('string')` renders non-null values and keeps nulls
null. -/

def convertCell (tgt : Target) : Cell → Option Cell
  | Cell.null => some Cell.null
  | Cell.num q =>
    match tgt with
    | .numeric => some (Cell.num q)
    | .datetime => if q.den = 1 then some (Cell.dt q.num) else none
    | .category => some (Cell.num q)
    | .text => some (Cell.str (String.mk (renderRat q)))
  | Cell.str s =>
    match tgt with
    | .numeric => (parseNumField s.data).map Cell.num
    | .datetime => (parseDateChars s.data).map Cell.dt
    | .category => some (Cell.str s)
    | .text => some (Cell.str s)
  | Cell.dt t =>
    match tgt with
    | .numeric => none
    | .datetime => some (Cell.dt t)
    | .category => some (Cell.dt t)
    | .text => some (Cell.str (String.mk (renderDt t)))
  | Cell.bool b =>
    match tgt with
    | .numeric => some (Cell.num (if b then 1 else 0))
    | .datetime => none
    | .category => some (Cell.bool b)
    | .text => some (Cell.str (if b then "True" else "False"))

/-- Conversion of a whole column: all cells must convert, and the declared
type is replaced (line 137-143); `none` models the per-column exception. -/

def convertColumn (c : Column) (tgt : Target) : Option Column :=
  (c.cells.mapM (convertCell tgt)).map
    (fun cells2 => { c with dtype := targetColType tgt, cells := cells2 })

/-- One iteration of the conversion loop on one column: `none` choice is
`Keep as is`; a failed conversion keeps the column and flags the error. -/

def stdStep (choice : String → Option Target) (c : Column) : Column × Bool :=
  match choice c.name with
  | none => (c, false)
  | some tgt =>
    match convertColumn c tgt with
    | some c2 => (c2, false)
    | none => (c, true)

/-- The whole conversion loop (lines 126-147): each column is converted
independently; the second component lists the columns whose conversion
failed and was reported by `st.error`. -/

def standardizeTypes (t : Table) (choice : String → Option Target) :
    Table × List String :=
  (t.map (fun c => (stdStep choice c).1),
    (t.filter (fun c => (stdStep choice c).2)).map (fun c => c.name))

/-! ## CSV export and reload (src/app.py lines 186-187 and 44-45)

`df.to_csv(index=False)` writes a header of column names and one
comma-separated record per row, ending each record with a newline; a field
containing a comma, a quote or a line break is written double-quoted with
embedded quotes doubled (the csv RFC behaviour pandas implements).
`pd.read_csv` splits records on newlines (skipping blank lines), undoes
the quoting, treats the first record as column names, recognizes its
default NA spellings as nulls, and types a column as numeric exactly when
every field of the column parses as a number. -/


/-- Characters forcing a CSV field to be quoted. -/

def isCsvSpecial (c : Char) : Bool :=
  c = ',' || c = '"' || c = '\n' || c = '\r'

/-- Double every quote of a field body (the csv escaping rule). -/

def escapeQuotes : List Char → List Char
  | [] => []
  | c :: cs =>
    if c = '"' then '"' :: '"' :: escapeQuotes cs else c :: escapeQuotes cs

/-- Write one field, quoting it when needed. -/

def renderField (f : List Char) : List Char :=
  if f.any isCsvSpecial then '"' :: (escapeQuotes f ++ ['"']) else f

/-- Write one record: fields joined by commas. -/

def joinComma : List (List Char) → List Char
  | [] => []
  | [f] => renderField f
  | f :: fs => renderField f ++ ',' :: joinComma fs

mutual

/-- Field scanner of the CSV reader: `acc` is the field read so far; a
comma ends the field, a quote enters quoted mode. -/
def parseFields (acc : List Char) : List Char → List (List Char)
  | [] => [acc]
  | c :: rest =>
    if c = ',' then acc :: parseFields [] rest
    else if c = '"' then parseQuoted acc rest
    else parseFields (acc ++ [c]) rest
termination_by l => l.length

/-- Quoted-mode scanner: a doubled quote is a literal quote, a single
quote returns to field mode. -/
def parseQuoted (acc : List Char) : List Char → List (List Char)
  | [] => [acc]
  | c :: rest =>
    if c = '"' then
      match rest with
      | [] => parseFields acc []
      | c2 :: rest2 =>
        if c2 = '"' then parseQuoted (acc ++ ['"']) rest2
        else parseFields acc (c2 :: rest2)
    else parseQuoted (acc ++ [c]) rest
termination_by l => l.length

end

/-- Record splitter: split on newlines, then drop blank records (pandas
skips blank lines, and the trailing newline of `to_csv` leaves one). -/

def splitLinesAux (acc : List Char) : List Char → List (List Char)
  | [] => [acc]
  | c :: rest =>
    if c = '\n' then acc :: splitLinesAux [] rest
    else splitLinesAux (acc ++ [c]) rest

/-- The records of a CSV byte stream. -/

def splitLines (cs : List Char) : List (List Char) :=
  (splitLinesAux [] cs).filter (fun l => !l.isEmpty)

/-- Raw text of one cell as `to_csv` writes it (a null is an empty
field). -/

def renderCell : Cell → List Char
  | Cell.null => []
  | Cell.num q => renderRat q
  | Cell.str s => s.data
  | Cell.dt t => renderDt t
  | Cell.bool b => if b then "True".data else "False".data

/-- Row count of a table (the length of its first column; every column of
a well-formed table has the same). -/

def tableNRows : Table → ℕ
  | [] => 0
  | c :: _ => c.cells.length

/-- The rows of a table, in column order. -/

def rowsOf (t : Table) : List (List Cell) :=
  (List.range (tableNRows t)).map (fun i => t.map (fun c => c.cells.getD i Cell.null))

/-- `df.to_csv(index=False)`: header record then one record per row, each
ended by a newline. -/

def toCsv (t : Table) : List Char :=
  (joinComma (t.map (fun c => c.name.data)) ::
    (rowsOf t).map (fun r => joinComma (r.map renderCell))).foldr
    (fun l acc => l ++ '\n' :: acc) []

/-- The default NA spellings of `read_csv`: any of these (and the empty
field) reads as a null. -/

def naValues : List String :=
  ["", "#N/A", "#N/A N/A", "#NA", "-1.#IND", "-1.#QNAN", "-NaN", "-nan",
   "1.#IND", "1.#QNAN", "<NA>", "N/A", "NA", "NULL", "NaN", "None", "n/a",
   "nan", "null"]

/-- Does a field read as a null? -/

def isNaField (f : List Char) : Bool :=
  naValues.any (fun s => decide (s.data = f))

/-- The infinity spellings the `read_csv` number converter accepts
(case-insensitively, with an optional sign).  An exact embedding has no
infinities, so these only participate in the numeric sniff. -/

def infSpellings : List String :=
  ["inf", "+inf", "-inf", "infinity", "+infinity", "-infinity"]

/-- Does a field spell an IEEE infinity? -/

def isInfField (f : List Char) : Bool :=
  infSpellings.any (fun s => decide (s.data = (trimChars f).map Char.toLower))

/-- Does a field count as numeric for the column-type sniff? -/

def fieldNumeric (f : List Char) : Bool :=
  isNaField f || isInfField f || (parseNumField f).isSome

/-- The boolean spellings the `read_csv` tokenizer recognizes: a column
consisting entirely of these becomes a bool-dtype column. -/

def trueSpellings : List String := ["True", "TRUE", "true"]

/-- The false spellings of the `read_csv` tokenizer. -/

def falseSpellings : List String := ["False", "FALSE", "false"]

/-- Does a field spell a boolean? -/

def isBoolField (f : List Char) : Bool :=
  (trueSpellings ++ falseSpellings).any (fun s => decide (s.data = f))

/-- The boolean a bool-spelled field denotes. -/

def boolFieldValue (f : List Char) : Bool :=
  trueSpellings.any (fun s => decide (s.data = f))

/-- Column typing of `read_csv`: a column every field of which reads as a
number (or a null) becomes numeric; otherwise a column consisting
entirely of boolean spellings becomes a bool-dtype column (a bool column
admits no NA, so the boolean case requires every field to be a boolean);
any other column becomes text, with NA spellings reading as nulls.
(A column mixing boolean spellings and NA fields is object-dtype in
pandas, holding Python booleans; the embedding keeps the spellings as
text there, a corner outside every claim's scope.) -/

def inferCells (fields : List (List Char)) : ColType × List Cell :=
  if fields.all fieldNumeric then
    (ColType.numeric, fields.map (fun f =>
      if isNaField f then Cell.null
      else
        match parseNumField f with
        | some q => Cell.num q
        | none => Cell.null))
  else if fields.all isBoolField then
    (ColType.boolean, fields.map (fun f => Cell.bool (boolFieldValue f)))
  else
    (ColType.text, fields.map (fun f =>
      if isNaField f then Cell.null else Cell.str (String.mk f)))

/-- Failures of the loading step. -/

inductive LoadError where
  | emptyData    -- EmptyDataError: no records at all
  | malformed    -- tokenizer errors, e.g. a record with extra fields
  | unsupported  -- no extension branch matched, so `df` is never bound
deriving DecidableEq, Repr

/-- `pd.read_csv` on raw text: first record is the header, every record
must have as many fields as the header, columns are typed by the sniff. -/

def csvParse (input : List Char) : Except LoadError Table :=
  match splitLines input with
  | [] => .error .emptyData
  | header :: dataLines =>
    let names := parseFields [] header
    let rows := dataLines.map (parseFields [])
    if rows.all (fun r => r.length = names.length) then
      .ok ((List.range names.length).map (fun j =>
        let tc := inferCells (rows.map (fun r => r.getD j []))
        { name := String.mk (names.getD j []), dtype := tc.1, cells := tc.2 }))
    else .error .malformed

/-! ## The loading step (src/app.py lines 37-66)

An uploaded file is parsed according to its extension inside a
`try`/`except` that reports the error and leaves `st.session_state`
untouched; a file whose name matches no branch leaves `df` unbound, and
the `NameError` at `df.copy()` is caught by the same `except`.  A sample
dataset is fetched from a fixed URL with no `try` at all: a fetch error
propagates, the framework reports it once, and the session state keeps its
previous value.  Excel and JSON parsing are external to the repository and
enter the model as parameters. -/


/-- `name.endswith(pat)` on character lists. -/

def endsWithChars (cs pat : List Char) : Bool :=
  pat.reverse.isPrefixOf cs.reverse

/-- The extension dispatch of lines 44-49.  `excelP` and `jsonP` stand for
`pd.read_excel` and `pd.read_json`. -/

def parseUpload (excelP jsonP : List Char → Except LoadError Table)
    (name : String) (content : List Char) : Except LoadError Table :=
  if endsWithChars name.data ".csv".data then csvParse content
  else if endsWithChars name.data ".xlsx".data then excelP content
  else if endsWithChars name.data ".json".data then jsonP content
  else .error .unsupported

/-- The upload branch as a session-state step (lines 42-55): on success the
table is stored and one log entry appended; on failure the state is
returned unchanged together with the reported error. -/

def uploadStep (excelP jsonP : List Char → Except LoadError Table)
    (st : SessionState) (name : String) (content : List Char) :
    SessionState × Option LoadError :=
  match parseUpload excelP jsonP name content with
  | .ok t => ({ df := some t, logs := st.logs ++ ["Uploaded file: " ++ name] }, none)
  | .error e => (st, some e)

/-- The sample branch as a session-state step (lines 56-66); `fetched` is
the outcome of the network read of the fixed URL. -/

def sampleStep (st : SessionState) (which : String)
    (fetched : Except LoadError Table) : SessionState × Option LoadError :=
  match fetched with
  | .ok t =>
    ({ df := some t, logs := st.logs ++ ["Loaded sample dataset: " ++ which] },
      none)
  | .error e => (st, some e)

/-- Integer-literal shape of a field: optional minus sign, then digits. -/

def digitsShape : List Char → Bool
  | [] => false
  | c :: r =>
    if c = '-' then !r.isEmpty && r.all Char.isDigit
    else (c :: r).all Char.isDigit

/-- A numeric cell whose exact value an int64/float64 CSV cycle preserves:
an integral number. -/

def GoodNumCell (x : Cell) : Prop := ∃ q : ℚ, x = Cell.num q ∧ q.den = 1

/-- A text cell the CSV cycle preserves: not an NA spelling (hence
non-empty), not numeric-looking, not an infinity spelling, and free of
line breaks. -/

def GoodStrCell (x : Cell) : Prop :=
  ∃ s : String, x = Cell.str s ∧
    isNaField s.data = false ∧ parseNumField s.data = none ∧
    isInfField s.data = false ∧ isBoolField s.data = false ∧
    ∀ ch ∈ s.data, ¬ch = '\n' ∧ ¬ch = '\r'

/-- A column of the round-trip statement: `n` rows, a non-empty name free
of line breaks, and either a numeric column of integral values or a text
column of preservable strings. -/

def GoodColumn (n : ℕ) (c : Column) : Prop :=
  c.cells.length = n ∧ c.name.data ≠ [] ∧
    (∀ ch ∈ c.name.data, ¬ch = '\n' ∧ ¬ch = '\r') ∧
    ((c.dtype = ColType.numeric ∧ ∀ x ∈ c.cells, GoodNumCell x) ∨
      (c.dtype = ColType.text ∧ ∀ x ∈ c.cells, GoodStrCell x))

theorem dedupeAux_sublist (seen : List Row) (rows : List Row) :
    (dedupeAux seen rows).Sublist rows := by
  induction rows generalizing seen with
  | nil => simp [dedupeAux]
  | cons r rs ih =>
    simp only [dedupeAux]
    split
    · exact (ih seen).trans (List.sublist_cons_self r rs)
    · exact (ih (r :: seen)).cons₂ r

theorem mem_dedupeAux_not_seen {seen : List Row} {rows : List Row} {r : Row}
    (h : r ∈ dedupeAux seen rows) : r ∉ seen := by
  induction rows generalizing seen with
  | nil => simp [dedupeAux] at h
  | cons x xs ih =>
    simp only [dedupeAux] at h
    split at h
    · exact ih h
    · rcases List.mem_cons.mp h with rfl | hmem
      · assumption
      · intro hr
        exact ih hmem (List.mem_cons_of_mem _ hr)

theorem dedupeAux_nodup (seen : List Row) (rows : List Row) :
    (dedupeAux seen rows).Nodup := by
  induction rows generalizing seen with
  | nil => simp [dedupeAux]
  | cons r rs ih =>
    simp only [dedupeAux]
    split
    · exact ih seen
    · refine List.nodup_cons.mpr ⟨?_, ih (r :: seen)⟩
      intro hmem
      exact mem_dedupeAux_not_seen hmem (List.mem_cons_self r seen)

/-- On an input already free of duplicates and disjoint from `seen`,
`dedupeAux` is the identity. -/

theorem dedupeAux_eq_self {seen : List Row} {rows : List Row}
    (hnd : rows.Nodup) (hdis : ∀ r ∈ rows, r ∉ seen) :
    dedupeAux seen rows = rows := by
  induction rows generalizing seen with
  | nil => simp [dedupeAux]
  | cons r rs ih =>
    have hr : r ∉ seen := hdis r (List.mem_cons_self r rs)
    simp only [dedupeAux, if_neg hr]
    have hnd' := List.nodup_cons.mp hnd
    refine congrArg (r :: ·) (ih hnd'.2 ?_)
    intro x hx
    intro hmem
    rcases List.mem_cons.mp hmem with rfl | hseen
    · exact hnd'.1 hx
    · exact hdis x (List.mem_cons_of_mem _ hx) hseen

theorem dedupe_nodup (rows : List Row) : (dedupe rows).Nodup :=
  dedupeAux_nodup [] rows

theorem dedupe_sublist (rows : List Row) : (dedupe rows).Sublist rows :=
  dedupeAux_sublist [] rows

theorem dedupe_idem (rows : List Row) : dedupe (dedupe rows) = dedupe rows :=
  dedupeAux_eq_self (dedupe_nodup rows) (fun _ _ h => (List.not_mem_nil _ h).elim)

theorem dedupeAux_eq_firstOccurKeepAux {seen earlier : List Row}
    (hiff : ∀ x, x ∈ seen ↔ x ∈ earlier) (rows : List Row) :
    dedupeAux seen rows = firstOccurKeepAux earlier rows := by
  induction rows generalizing seen earlier with
  | nil => simp [dedupeAux, firstOccurKeepAux]
  | cons r rs ih =>
    simp only [dedupeAux, firstOccurKeepAux]
    by_cases hr : r ∈ seen
    · rw [if_pos hr, if_pos ((hiff r).mp hr)]
      refine ih ?_
      intro x
      rw [hiff x, List.mem_append]
      constructor
      · exact Or.inl
      · rintro (h | h)
        · exact h
        · rw [List.mem_singleton.mp h]
          exact (hiff r).mp hr
    · rw [if_neg hr, if_neg (fun h => hr ((hiff r).mpr h))]
      refine congrArg (r :: ·) (ih ?_)
      intro x
      rw [List.mem_cons, hiff x, List.mem_append, List.mem_singleton, or_comm]

theorem dedupe_eq_firstOccurKeep (rows : List Row) :
    dedupe rows = firstOccurKeep rows :=
  dedupeAux_eq_firstOccurKeepAux (by simp) rows

theorem rangeViolationCount_split (cells : List Cell) (lo hi : ℚ)
    (h : ∀ c ∈ cells, c = Cell.null ∨ ∃ q, c = Cell.num q) :
    rangeViolationCount cells lo hi =
      specRangeViolationCount cells lo hi + nullCount cells := by
  induction cells with
  | nil => rfl
  | cons c cs ih =>
    have hc := h c (List.mem_cons_self c cs)
    have ih' := ih (fun x hx => h x (List.mem_cons_of_mem c hx))
    rcases hc with rfl | ⟨q, rfl⟩
    · simp only [rangeViolationCount, specRangeViolationCount, nullCount,
        List.countP_cons, betweenCell] at *
      simp only [ih']
      simp
      omega
    · simp only [rangeViolationCount, specRangeViolationCount, nullCount,
        List.countP_cons, betweenCell] at *
      simp only [ih']
      rcases lt_or_le q lo with hq | hq <;> rcases lt_or_le hi q with hq' | hq' <;>
        simp_all <;> omega

theorem emailInvalidCount_split (cells : List Cell) :
    emailInvalidCount cells = specEmailInvalidCount cells + nullCount cells := by
  induction cells with
  | nil => rfl
  | cons c cs ih =>
    cases c <;>
      simp only [emailInvalidCount, specEmailInvalidCount, nullCount,
        List.countP_cons, emailMatchCell] at * <;>
      simp_all <;> omega

theorem charListLE_refl (l : List Char) : charListLE l l = true := by
  induction l with
  | nil => rfl
  | cons a as ih => simp [charListLE, ih]

theorem cellLE_refl (c : Cell) : cellLE c c = true := by
  cases c <;> simp [cellLE, charListLE_refl]

theorem charListLE_total (a b : List Char) :
    charListLE a b = true ∨ charListLE b a = true := by
  induction a generalizing b with
  | nil => exact Or.inl rfl
  | cons x xs ih =>
    cases b with
    | nil => exact Or.inr rfl
    | cons y ys =>
      by_cases hxy : x = y
      · subst hxy
        rcases ih ys with h | h
        · exact Or.inl (by simp [charListLE, h])
        · exact Or.inr (by simp [charListLE, h])
      · rcases Ne.lt_or_lt hxy with hlt | hlt
        · refine Or.inl ?_
          simp only [charListLE, if_neg hxy]
          exact decide_eq_true hlt
        · refine Or.inr ?_
          simp only [charListLE, if_neg (Ne.symm hxy)]
          exact decide_eq_true hlt

theorem charListLE_trans {a b c : List Char}
    (hab : charListLE a b = true) (hbc : charListLE b c = true) :
    charListLE a c = true := by
  induction a generalizing b c with
  | nil => rfl
  | cons x xs ih =>
    cases b with
    | nil => simp [charListLE] at hab
    | cons y ys =>
      cases c with
      | nil => simp [charListLE] at hbc
      | cons z zs =>
        by_cases hxy : x = y <;> by_cases hyz : y = z
        · subst hxy hyz
          simp only [charListLE, if_pos rfl] at *
          exact ih hab hbc
        · subst hxy
          simp only [charListLE, if_pos rfl, if_neg hyz] at *
          simp [hyz, hbc]
        · subst hyz
          simp only [charListLE, if_neg hxy] at *
          simp [hxy, hab]
        · simp only [charListLE, if_neg hxy, if_neg hyz] at hab hbc
          have hxz : x < z := lt_trans (of_decide_eq_true hab) (of_decide_eq_true hbc)
          have hne : x ≠ z := fun h => by
            subst h
            exact lt_irrefl _ hxz
          simp [charListLE, hne, hxz]

theorem cellLE_total_num {a b : Cell}
    (ha : isNumCell a = true) (hb : isNumCell b = true) :
    cellLE a b = true ∨ cellLE b a = true := by
  cases a <;> cases b <;> simp_all [isNumCell, cellLE]
  exact le_total _ _

theorem cellLE_trans_num {a b c : Cell} (ha : isNumCell a = true)
    (hb : isNumCell b = true) (hc : isNumCell c = true)
    (hab : cellLE a b = true) (hbc : cellLE b c = true) : cellLE a c = true := by
  cases a <;> cases b <;> cases c <;> simp_all [isNumCell, cellLE]
  exact le_trans hab hbc

theorem cellLE_total_str {a b : Cell}
    (ha : isStrCell a = true) (hb : isStrCell b = true) :
    cellLE a b = true ∨ cellLE b a = true := by
  cases a <;> cases b <;> simp_all [isStrCell, cellLE]
  exact charListLE_total _ _

theorem cellLE_trans_str {a b c : Cell} (ha : isStrCell a = true)
    (hb : isStrCell b = true) (hc : isStrCell c = true)
    (hab : cellLE a b = true) (hbc : cellLE b c = true) : cellLE a c = true := by
  cases a <;> cases b <;> cases c <;> simp_all [isStrCell, cellLE]
  exact charListLE_trans hab hbc

theorem betterMode_eq_or (vs : List Cell) (a b : Cell) :
    betterMode vs a b = a ∨ betterMode vs a b = b := by
  unfold betterMode
  split
  · exact Or.inr rfl
  · split
    · exact Or.inr rfl
    · exact Or.inl rfl

theorem betterMode_count_ge (vs : List Cell) (a b : Cell) :
    vs.count a ≤ vs.count (betterMode vs a b) ∧
      vs.count b ≤ vs.count (betterMode vs a b) := by
  unfold betterMode
  split
  · omega
  · split
    · rename_i h hi
      rw [Bool.and_eq_true] at hi
      have := of_decide_eq_true hi.1
      omega
    · rename_i h hi
      refine ⟨le_refl _, ?_⟩
      omega

/-- On a kind-homogeneous pair, the survivor of `betterMode` is
`cellLE`-below whichever argument ties it in count. -/

theorem betterMode_le (vs : List Cell) {a b : Cell}
    (htot : cellLE a b = true ∨ cellLE b a = true) :
    (vs.count a = vs.count (betterMode vs a b) → cellLE (betterMode vs a b) a = true) ∧
      (vs.count b = vs.count (betterMode vs a b) → cellLE (betterMode vs a b) b = true) := by
  unfold betterMode
  split
  · rename_i h
    exact ⟨fun hcnt => absurd hcnt (by omega), fun _ => cellLE_refl b⟩
  · split
    · rename_i h hi
      rw [Bool.and_eq_true] at hi
      exact ⟨fun _ => hi.2, fun _ => cellLE_refl b⟩
    · rename_i h hi
      refine ⟨fun _ => cellLE_refl a, fun hcnt => ?_⟩
      rcases htot with hab | hba
      · exact hab
      · exfalso
        rw [Bool.and_eq_true] at hi
        push_neg at hi
        exact hi (decide_eq_true hcnt) hba

theorem foldl_betterMode_mem (vs : List Cell) (v : Cell) (l : List Cell) :
    l.foldl (betterMode vs) v ∈ v :: l := by
  induction l generalizing v with
  | nil => exact List.mem_cons_self _ _
  | cons b l2 ih =>
    rw [List.foldl_cons]
    rcases betterMode_eq_or vs v b with he | he <;> rw [he]
    · rcases List.mem_cons.mp (ih v) with h2 | h2
      · rw [h2]
        exact List.mem_cons_self _ _
      · exact List.mem_cons_of_mem _ (List.mem_cons_of_mem _ h2)
    · rcases List.mem_cons.mp (ih b) with h2 | h2
      · rw [h2]
        exact List.mem_cons_of_mem _ (List.mem_cons_self _ _)
      · exact List.mem_cons_of_mem _ (List.mem_cons_of_mem _ h2)

/-- The fold computing `mode()[0]` returns an element of the list whose
count is maximal and which is `cellLE`-below every count-tied element,
provided `cellLE` is total and transitive on the values involved. -/

theorem foldl_betterMode_spec (vs : List Cell) (P : Cell → Prop)
    (htot : ∀ a b, P a → P b → cellLE a b = true ∨ cellLE b a = true)
    (htrans : ∀ a b c, P a → P b → P c →
      cellLE a b = true → cellLE b c = true → cellLE a c = true)
    (v : Cell) (l : List Cell) (hv : P v) (hl : ∀ x ∈ l, P x) :
    (∀ x ∈ v :: l, vs.count x ≤ vs.count (l.foldl (betterMode vs) v)) ∧
      (∀ x ∈ v :: l, vs.count x = vs.count (l.foldl (betterMode vs) v) →
        cellLE (l.foldl (betterMode vs) v) x = true) := by
  induction l generalizing v with
  | nil =>
    refine ⟨?_, ?_⟩ <;> intro x hx
    · rw [List.mem_singleton.mp hx, List.foldl_nil]
    · intro _
      rw [List.foldl_nil, List.mem_singleton.mp hx]
      exact cellLE_refl _
  | cons b l2 ih =>
    have hb : P b := hl b (List.mem_cons_self b l2)
    have hl2 : ∀ x ∈ l2, P x := fun x hx => hl x (List.mem_cons_of_mem b hx)
    have hw : P (betterMode vs v b) := by
      rcases betterMode_eq_or vs v b with he | he <;> rw [he] <;> assumption
    have hPr : P (l2.foldl (betterMode vs) (betterMode vs v b)) := by
      rcases List.mem_cons.mp (foldl_betterMode_mem vs (betterMode vs v b) l2)
        with h2 | h2
      · rw [h2]; exact hw
      · exact hl2 _ h2
    obtain ⟨ihcount, ihle⟩ := ih (betterMode vs v b) hw hl2
    have hcw := betterMode_count_ge vs v b
    have hww := ihcount (betterMode vs v b)
      (List.mem_cons_self (betterMode vs v b) l2)
    rw [List.foldl_cons]
    constructor
    · intro x hx
      rcases List.mem_cons.mp hx with rfl | hx2
      · exact le_trans hcw.1 hww
      rcases List.mem_cons.mp hx2 with rfl | hx3
      · exact le_trans hcw.2 hww
      · exact ihcount x (List.mem_cons_of_mem _ hx3)
    · intro x hx hcnt
      rcases List.mem_cons.mp hx with rfl | hx2
      · have h1 : vs.count x = vs.count (betterMode vs x b) := by
          have := hcw.1
          omega
        have h2 : vs.count (betterMode vs x b) =
            vs.count (l2.foldl (betterMode vs) (betterMode vs x b)) := by omega
        have hrw := ihle (betterMode vs x b)
          (List.mem_cons_self (betterMode vs x b) l2) h2
        have hwx := (betterMode_le vs (htot x b hv hb)).1 h1
        exact htrans _ _ _ hPr hw hv hrw hwx
      rcases List.mem_cons.mp hx2 with rfl | hx3
      · have h1 : vs.count x = vs.count (betterMode vs v x) := by
          have := hcw.2
          omega
        have h2 : vs.count (betterMode vs v x) =
            vs.count (l2.foldl (betterMode vs) (betterMode vs v x)) := by omega
        have hrw := ihle (betterMode vs v x)
          (List.mem_cons_self (betterMode vs v x) l2) h2
        have hwx := (betterMode_le vs (htot v x hv hb)).2 h1
        exact htrans _ _ _ hPr hw hb hrw hwx
      · exact ihle x (List.mem_cons_of_mem _ hx3) hcnt

theorem modeValue_mem {cells : List Cell} {m : Cell}
    (hm : modeValue? cells = some m) : m ∈ nonNullVals cells := by
  simp only [modeValue?] at hm
  cases hvs : nonNullVals cells with
  | nil => rw [hvs] at hm; exact absurd hm (by simp)
  | cons v rest =>
    rw [hvs] at hm
    simp only [Option.some.injEq] at hm
    rw [← hm]
    exact foldl_betterMode_mem _ v rest

theorem modeValue_not_null {cells : List Cell} {m : Cell}
    (hm : modeValue? cells = some m) : m ≠ Cell.null := by
  have := modeValue_mem hm
  simp only [nonNullVals, List.mem_filter] at this
  exact of_decide_eq_true this.2

/-- `mode()[0]` of the embedding is the least most-frequent non-null value,
on a column whose non-null values are all numeric or all strings. -/

theorem modeValue_spec {cells : List Cell} {m : Cell}
    (hkind : (∀ x ∈ nonNullVals cells, isNumCell x = true) ∨
      (∀ x ∈ nonNullVals cells, isStrCell x = true))
    (hm : modeValue? cells = some m) :
    m ∈ nonNullVals cells ∧
      (∀ v ∈ nonNullVals cells,
        (nonNullVals cells).count v ≤ (nonNullVals cells).count m) ∧
      (∀ v ∈ nonNullVals cells,
        (nonNullVals cells).count v = (nonNullVals cells).count m →
          cellLE m v = true) := by
  refine ⟨modeValue_mem hm, ?_⟩
  simp only [modeValue?] at hm
  cases hvs : nonNullVals cells with
  | nil => rw [hvs] at hm; exact absurd hm (by simp)
  | cons v rest =>
    rw [hvs] at hm
    simp only [Option.some.injEq] at hm
    rw [← hm]
    rw [hvs] at hkind
    rcases hkind with hk | hk
    · exact foldl_betterMode_spec _ (fun c => isNumCell c = true)
        (fun a b ha hb => cellLE_total_num ha hb)
        (fun a b c ha hb hc => cellLE_trans_num ha hb hc)
        v rest (hk v (List.mem_cons_self v rest))
        (fun x hx => hk x (List.mem_cons_of_mem v hx))
    · exact foldl_betterMode_spec _ (fun c => isStrCell c = true)
        (fun a b ha hb => cellLE_total_str ha hb)
        (fun a b c ha hb hc => cellLE_trans_str ha hb hc)
        v rest (hk v (List.mem_cons_self v rest))
        (fun x hx => hk x (List.mem_cons_of_mem v hx))

theorem fillWith_not_null {cells : List Cell} {v : Cell} (hv : v ≠ Cell.null) :
    ∀ x ∈ fillWith cells v, x ≠ Cell.null := by
  intro x hx
  simp only [fillWith, List.mem_map] at hx
  obtain ⟨c, _, hc⟩ := hx
  by_cases hnull : c = Cell.null
  · rw [← hc, if_pos hnull]
    exact hv
  · rw [← hc, if_neg hnull]
    exact hnull

theorem fillWith_preserves (cells : List Cell) (v : Cell) (i : ℕ) (c : Cell)
    (hc : cells[i]? = some c) (hnn : c ≠ Cell.null) :
    (fillWith cells v)[i]? = some c := by
  simp [fillWith, List.getElem?_map, hc, hnn]

theorem findCol_setColCells (t : Table) (name : String) (c : Column)
    (cells2 : List Cell) (h : findCol t name = some c) :
    findCol (setColCells t name cells2) name = some { c with cells := cells2 } := by
  induction t with
  | nil => simp [findCol] at h
  | cons col rest ih =>
    by_cases hname : col.name = name
    · simp only [findCol, setColCells, List.map_cons, List.find?_cons, hname,
        if_pos, decide_True] at h ⊢
      simp at h ⊢
      subst h
      exact ⟨hname.symm, rfl⟩
    · have hd : decide (col.name = name) = false := decide_eq_false hname
      simp only [findCol, setColCells, List.map_cons, if_neg hname,
        List.find?_cons, hd] at h ⊢
      exact ih (by rw [findCol]; exact h)

theorem numericVals_ne_nil {cells : List Cell}
    (hnn : nonNullVals cells ≠ [])
    (hkind : ∀ x ∈ cells, x = Cell.null ∨ isNumCell x = true) :
    numericVals cells ≠ [] := by
  obtain ⟨x, hx⟩ := List.exists_mem_of_ne_nil _ hnn
  simp only [nonNullVals, List.mem_filter] at hx
  obtain ⟨hxc, hxd⟩ := hx
  have hxnn : x ≠ Cell.null := of_decide_eq_true hxd
  rcases hkind x hxc with rfl | hnum
  · exact absurd rfl hxnn
  · cases x with
    | num q =>
      intro hnil
      have : q ∈ numericVals cells := by
        simp only [numericVals, List.mem_filterMap]
        exact ⟨Cell.num q, hxc, rfl⟩
      rw [hnil] at this
      exact List.not_mem_nil _ this
    | null => exact absurd rfl hxnn
    | str s => simp [isNumCell] at hnum
    | dt d => simp [isNumCell] at hnum
    | bool b => simp [isNumCell] at hnum

theorem colMean_isSome {cells : List Cell} (h : numericVals cells ≠ []) :
    ∃ q, colMean cells = some q := by
  simp only [colMean]
  rw [if_neg (by simpa using h)]
  exact ⟨_, rfl⟩

theorem length_insertSorted (q : ℚ) (l : List ℚ) :
    (insertSorted q l).length = l.length + 1 := by
  induction l with
  | nil => rfl
  | cons x xs ih =>
    rw [insertSorted]
    split
    · rfl
    · rw [List.length_cons, ih, List.length_cons]

theorem length_sortRat (l : List ℚ) : (sortRat l).length = l.length := by
  induction l with
  | nil => rfl
  | cons x xs ih => rw [sortRat, length_insertSorted, ih, List.length_cons]

theorem colMedian_isSome {cells : List Cell} (h : numericVals cells ≠ []) :
    ∃ q, colMedian cells = some q := by
  simp only [colMedian]
  have hlen : (sortRat (numericVals cells)).length ≠ 0 := by
    rw [length_sortRat]
    simpa using h
  rw [if_neg hlen]
  split
  · exact ⟨_, rfl⟩
  · exact ⟨_, rfl⟩

theorem nonNullVals_ne_nil_of_mode {cells : List Cell}
    (hnn : nonNullVals cells ≠ []) : ∃ m, modeValue? cells = some m := by
  simp only [modeValue?]
  cases hvs : nonNullVals cells with
  | nil => exact absurd hvs hnn
  | cons v rest => exact ⟨_, rfl⟩

theorem parseFields_append_plain (f : List Char)
    (hf : ∀ c ∈ f, isCsvSpecial c = false) (acc rest : List Char) :
    parseFields acc (f ++ rest) = parseFields (acc ++ f) rest := by
  induction f generalizing acc with
  | nil => simp
  | cons c cs ih =>
    have hc := hf c (List.mem_cons_self c cs)
    simp only [isCsvSpecial, Bool.or_eq_false_iff, decide_eq_false_iff_not] at hc
    rw [List.cons_append, parseFields, if_neg hc.1.1.1, if_neg hc.1.1.2,
      ih (fun x hx => hf x (List.mem_cons_of_mem c hx)) (acc ++ [c])]
    congr 1
    simp

theorem parseQuoted_escape (f : List Char) (acc rest : List Char)
    (hrest : rest = [] ∨ ∃ tail, rest = ',' :: tail) :
    parseQuoted acc (escapeQuotes f ++ '"' :: rest) =
      parseFields (acc ++ f) rest := by
  induction f generalizing acc with
  | nil =>
    rcases hrest with rfl | ⟨tail, rfl⟩ <;>
      simp [escapeQuotes, parseQuoted]
  | cons c cs ih =>
    by_cases hc : c = '"'
    · subst hc
      have hesc : escapeQuotes ('"' :: cs) = '"' :: '"' :: escapeQuotes cs := by
        simp [escapeQuotes]
      have hstep :
          parseQuoted acc
            ('"' :: ('"' :: (escapeQuotes cs ++ '"' :: rest))) =
            parseQuoted (acc ++ ['"']) (escapeQuotes cs ++ '"' :: rest) := by
        simp [parseQuoted]
      rw [hesc, List.cons_append, List.cons_append, hstep, ih (acc ++ ['"'])]
      congr 1
      simp
    · have hesc : escapeQuotes (c :: cs) = c :: escapeQuotes cs := by
        simp [escapeQuotes, hc]
      have hstep :
          parseQuoted acc (c :: (escapeQuotes cs ++ '"' :: rest)) =
            parseQuoted (acc ++ [c]) (escapeQuotes cs ++ '"' :: rest) := by
        rw [parseQuoted.eq_def]
        simp [hc]
      rw [hesc, List.cons_append, hstep, ih (acc ++ [c])]
      congr 1
      simp

theorem parseFields_joinComma (fields : List (List Char)) (hne : fields ≠ []) :
    parseFields [] (joinComma fields) = fields := by
  induction fields with
  | nil => exact absurd rfl hne
  | cons f fs ih =>
    cases fs with
    | nil =>
      show parseFields [] (joinComma [f]) = [f]
      rw [joinComma, renderField]
      by_cases hq : f.any isCsvSpecial
      · rw [if_pos hq]
        have hstep :
            parseFields [] ('"' :: (escapeQuotes f ++ ['"'])) =
              parseQuoted [] (escapeQuotes f ++ '"' :: []) := by
          simp [parseFields]
        rw [hstep, parseQuoted_escape f [] [] (Or.inl rfl)]
        simp [parseFields]
      · rw [if_neg hq]
        have hplain : ∀ c ∈ f, isCsvSpecial c = false := fun c hcmem =>
          Bool.eq_false_iff.mpr
            (List.any_eq_false.mp (Bool.of_not_eq_true hq) c hcmem)
        have h2 := parseFields_append_plain f hplain [] []
        rw [List.append_nil, List.nil_append] at h2
        rw [h2, parseFields]
    | cons f2 fs2 =>
      have ih2 := ih (fun h => List.noConfusion h)
      have hjc : joinComma (f :: f2 :: fs2) =
          renderField f ++ ',' :: joinComma (f2 :: fs2) := by
        rw [joinComma]
        exact fun h => List.noConfusion h
      show parseFields [] (joinComma (f :: f2 :: fs2)) = f :: f2 :: fs2
      rw [hjc, renderField]
      by_cases hq : f.any isCsvSpecial
      · rw [if_pos hq]
        rw [show (('"' :: (escapeQuotes f ++ ['"'])) ++
            ',' :: joinComma (f2 :: fs2)) =
          '"' :: (escapeQuotes f ++ '"' :: (',' :: joinComma (f2 :: fs2)))
          by simp]
        have hstep :
            parseFields []
              ('"' :: (escapeQuotes f ++ '"' :: (',' :: joinComma (f2 :: fs2)))) =
              parseQuoted []
                (escapeQuotes f ++ '"' :: (',' :: joinComma (f2 :: fs2))) := by
          simp [parseFields]
        rw [hstep, parseQuoted_escape f [] _ (Or.inr ⟨_, rfl⟩), List.nil_append]
        rw [parseFields, if_pos rfl, ih2]
      · rw [if_neg hq]
        have hplain : ∀ c ∈ f, isCsvSpecial c = false := fun c hcmem =>
          Bool.eq_false_iff.mpr
            (List.any_eq_false.mp (Bool.of_not_eq_true hq) c hcmem)
        rw [parseFields_append_plain f hplain [] _, List.nil_append]
        rw [parseFields, if_pos rfl, ih2]

theorem splitLinesAux_append (l : List Char) (hl : ∀ c ∈ l, ¬c = '\n')
    (acc rest : List Char) :
    splitLinesAux acc (l ++ rest) = splitLinesAux (acc ++ l) rest := by
  induction l generalizing acc with
  | nil => simp
  | cons c cs ih =>
    rw [List.cons_append, splitLinesAux, if_neg (hl c (List.mem_cons_self c cs)),
      ih (fun x hx => hl x (List.mem_cons_of_mem c hx)) (acc ++ [c])]
    congr 1
    simp

/-- Splitting the concatenation of newline-terminated, newline-free,
non-blank records recovers the records. -/

theorem splitLines_foldr (ls : List (List Char))
    (h : ∀ l ∈ ls, l ≠ [] ∧ ∀ c ∈ l, ¬c = '\n') :
    splitLines (ls.foldr (fun l acc => l ++ '\n' :: acc) []) = ls := by
  induction ls with
  | nil => rfl
  | cons l ls2 ih =>
    have hl := h l (List.mem_cons_self l ls2)
    rw [List.foldr_cons, splitLines,
      splitLinesAux_append l hl.2 [] ('\n' :: ls2.foldr (fun l acc => l ++ '\n' :: acc) []),
      List.nil_append, splitLinesAux, if_pos rfl, List.filter_cons]
    have hne : (!l.isEmpty) = true := by
      cases l with
      | nil => exact absurd rfl hl.1
      | cons c cs => rfl
    rw [if_pos hne]
    exact congrArg (l :: ·) (ih (fun x hx => h x (List.mem_cons_of_mem l hx)))

theorem natToCharsAux_append_acc (n : ℕ) (acc : List Char) :
    natToCharsAux n acc = natToCharsAux n [] ++ acc := by
  induction n using Nat.strong_induction_on generalizing acc with
  | _ n ih =>
    cases n with
    | zero => simp [natToCharsAux]
    | succ m =>
      have hlt : (m + 1) / 10 < m + 1 := Nat.div_lt_self (Nat.succ_pos m) (by norm_num)
      rw [natToCharsAux, natToCharsAux, ih _ hlt, ih _ hlt
        [Char.ofNat ((m + 1) % 10 + 48)], List.append_assoc]
      rfl

theorem toNat_digitChar (d : ℕ) (hd : d < 10) :
    (Char.ofNat (d + 48)).toNat - 48 = d ∧ (Char.ofNat (d + 48)).isDigit = true := by
  interval_cases d <;> exact ⟨by decide, by decide⟩

theorem digitsToNat_append_singleton (xs : List Char) (c : Char) :
    digitsToNat (xs ++ [c]) = digitsToNat xs * 10 + (c.toNat - 48) := by
  simp [digitsToNat, List.foldl_append]

theorem digitsToNat_natToCharsAux (n : ℕ) (hn : 0 < n) :
    digitsToNat (natToCharsAux n []) = n := by
  induction n using Nat.strong_induction_on with
  | _ n ih =>
    cases n with
    | zero => exact absurd hn (lt_irrefl 0)
    | succ m =>
      rw [natToCharsAux, natToCharsAux_append_acc]
      rw [digitsToNat_append_singleton]
      rw [(toNat_digitChar ((m + 1) % 10) (Nat.mod_lt _ (by norm_num))).1]
      by_cases hq : (m + 1) / 10 = 0
      · rw [hq]
        have : (m + 1) % 10 = m + 1 := by omega
        simp [natToCharsAux, digitsToNat, this]
      · have hlt : (m + 1) / 10 < m + 1 := Nat.div_lt_self (Nat.succ_pos m) (by norm_num)
        rw [ih _ hlt (Nat.pos_of_ne_zero hq)]
        omega

theorem digitsToNat_natToChars (n : ℕ) : digitsToNat (natToChars n) = n := by
  rw [natToChars]
  by_cases h0 : n = 0
  · rw [if_pos h0, h0]
    decide
  · rw [if_neg h0]
    exact digitsToNat_natToCharsAux n (Nat.pos_of_ne_zero h0)

theorem natToChars_all_digits (n : ℕ) :
    ∀ c ∈ natToChars n, c.isDigit = true := by
  rw [natToChars]
  by_cases h0 : n = 0
  · rw [if_pos h0]
    intro c hcmem
    rw [List.mem_singleton.mp hcmem]
    decide
  · rw [if_neg h0]
    clear h0
    induction n using Nat.strong_induction_on with
    | _ n ih =>
      cases n with
      | zero => simp [natToCharsAux]
      | succ m =>
        rw [natToCharsAux, natToCharsAux_append_acc]
        intro c hcmem
        rcases List.mem_append.mp hcmem with hmem | hmem
        · exact ih _ (Nat.div_lt_self (Nat.succ_pos m) (by norm_num)) c hmem
        · rw [List.mem_singleton.mp hmem]
          exact (toNat_digitChar ((m + 1) % 10) (Nat.mod_lt _ (by norm_num))).2

theorem natToChars_ne_nil (n : ℕ) : natToChars n ≠ [] := by
  rw [natToChars]
  by_cases h0 : n = 0
  · rw [if_pos h0]
    exact fun h => List.noConfusion h
  · rw [if_neg h0]
    cases hn : n with
    | zero => exact absurd hn h0
    | succ m =>
      rw [natToCharsAux, natToCharsAux_append_acc]
      intro hcon
      exact List.noConfusion (List.append_eq_nil.mp hcon).2

theorem takeWhile_all_eq {p : Char → Bool} (l : List Char)
    (h : ∀ c ∈ l, p c = true) : l.takeWhile p = l ∧ l.dropWhile p = [] := by
  induction l with
  | nil => exact ⟨rfl, rfl⟩
  | cons c cs ih =>
    have hc := h c (List.mem_cons_self c cs)
    have ih2 := ih (fun x hx => h x (List.mem_cons_of_mem c hx))
    rw [List.takeWhile_cons, List.dropWhile_cons, hc]
    simp [ih2.1, ih2.2]

theorem digit_not_sign {c : Char} (h : c.isDigit = true) :
    ¬c = '-' ∧ ¬c = '+' := by
  constructor <;> intro h2 <;> rw [h2] at h <;> exact absurd h (by decide)

theorem splitSign_digit_head {c : Char} {cs : List Char}
    (h : c.isDigit = true) : splitSign (c :: cs) = (1, c :: cs) := by
  have h2 := digit_not_sign h
  simp [splitSign, h2.1, h2.2]

theorem parseRatChars_digits (l : List Char) (hne : l ≠ [])
    (hd : ∀ c ∈ l, c.isDigit = true) :
    parseRatChars l = some (digitsToNat l : ℚ) := by
  obtain ⟨c, cs, rfl⟩ : ∃ c cs, l = c :: cs := by
    cases l with
    | nil => exact absurd rfl hne
    | cons c cs => exact ⟨c, cs, rfl⟩
  have htw := takeWhile_all_eq (c :: cs) hd
  have hsplit : splitSign (c :: cs) = (1, c :: cs) :=
    splitSign_digit_head (hd c (List.mem_cons_self c cs))
  simp only [parseRatChars, hsplit]
  rw [htw.1, htw.2]
  simp [parseExpPart]

theorem parseRatChars_neg_digits (l : List Char) (hne : l ≠ [])
    (hd : ∀ c ∈ l, c.isDigit = true) :
    parseRatChars ('-' :: l) = some (-(digitsToNat l : ℚ)) := by
  obtain ⟨c, cs, rfl⟩ : ∃ c cs, l = c :: cs := by
    cases l with
    | nil => exact absurd rfl hne
    | cons c cs => exact ⟨c, cs, rfl⟩
  have htw := takeWhile_all_eq (c :: cs) hd
  have hsplit : splitSign ('-' :: c :: cs) = (-1, c :: cs) := by
    simp [splitSign]
  simp only [parseRatChars, hsplit]
  rw [htw.1, htw.2]
  simp [parseExpPart]

theorem parseRatChars_intToChars (i : ℤ) :
    parseRatChars (intToChars i) = some (i : ℚ) := by
  by_cases hneg : i < 0
  · rw [intToChars, if_pos hneg,
      parseRatChars_neg_digits _ (natToChars_ne_nil _) (natToChars_all_digits _),
      digitsToNat_natToChars]
    congr 1
    have habs : (i.natAbs : ℤ) = -i := Int.ofNat_natAbs_of_nonpos (le_of_lt hneg)
    have h2 : ((i.natAbs : ℤ) : ℚ) = ((-i : ℤ) : ℚ) := by rw [habs]
    rw [Int.cast_natCast, Int.cast_neg] at h2
    rw [h2, neg_neg]
  · rw [intToChars, if_neg hneg,
      parseRatChars_digits _ (natToChars_ne_nil _) (natToChars_all_digits _),
      digitsToNat_natToChars]
    congr 1
    have : ((i.toNat : ℤ) : ℚ) = (i : ℚ) := by
      rw [Int.toNat_of_nonneg (not_lt.mp hneg)]
    push_cast at this
    rw [this]

theorem dropWhile_not_head {p : Char → Bool} (l : List Char)
    (h : ∀ c ∈ l, p c = false) : l.dropWhile p = l := by
  cases l with
  | nil => rfl
  | cons c cs =>
    rw [List.dropWhile_cons, h c (List.mem_cons_self c cs)]
    simp

theorem trimChars_eq_self (l : List Char)
    (h : ∀ c ∈ l, c.isWhitespace = false) : trimChars l = l := by
  rw [trimChars, dropWhile_not_head l h, dropWhile_not_head l.reverse
    (fun c hcmem => h c (List.mem_reverse.mp hcmem)), List.reverse_reverse]

theorem intToChars_chars (i : ℤ) :
    ∀ c ∈ intToChars i, c.isDigit = true ∨ c = '-' := by
  rw [intToChars]
  split
  · intro c hcmem
    rcases List.mem_cons.mp hcmem with rfl | hmem
    · exact Or.inr rfl
    · exact Or.inl (natToChars_all_digits _ c hmem)
  · exact fun c hcmem => Or.inl (natToChars_all_digits _ c hcmem)

theorem digit_not_ws {c : Char} (h : c.isDigit = true) :
    c.isWhitespace = false := by
  cases hw : c.isWhitespace with
  | false => rfl
  | true =>
    exfalso
    simp only [Char.isWhitespace, Bool.or_eq_true, decide_eq_true_eq] at hw
    rcases hw with ((rfl | rfl) | rfl) | rfl <;> exact absurd h (by decide)

theorem parseNumField_intToChars (i : ℤ) :
    parseNumField (intToChars i) = some (i : ℚ) := by
  rw [parseNumField, trimChars_eq_self _ ?_, parseRatChars_intToChars]
  intro c hcmem
  rcases intToChars_chars i c hcmem with hd | rfl
  · exact digit_not_ws hd
  · decide

theorem digitsShape_intToChars (i : ℤ) : digitsShape (intToChars i) = true := by
  rw [intToChars]
  split
  · rw [digitsShape, if_pos rfl, Bool.and_eq_true]
    constructor
    · cases hn : natToChars i.natAbs with
      | nil => exact absurd hn (natToChars_ne_nil _)
      | cons c cs => rfl
    · exact List.all_eq_true.mpr (natToChars_all_digits _)
  · cases hn : natToChars i.toNat with
    | nil => exact absurd hn (natToChars_ne_nil _)
    | cons c cs =>
      have hdig : c.isDigit = true := by
        have := natToChars_all_digits i.toNat
        rw [hn] at this
        exact this c (List.mem_cons_self c cs)
      rw [digitsShape, if_neg (digit_not_sign hdig).1]
      refine List.all_eq_true.mpr ?_
      have := natToChars_all_digits i.toNat
      rw [hn] at this
      exact this

theorem naValues_not_digitsShape :
    ∀ s ∈ naValues, digitsShape s.data = false := by decide

theorem isNaField_of_digitsShape {f : List Char} (h : digitsShape f = true) :
    isNaField f = false := by
  cases hna : isNaField f with
  | false => rfl
  | true =>
    exfalso
    rw [isNaField] at hna
    obtain ⟨s, hs, heq⟩ := List.any_eq_true.mp hna
    have h3 := naValues_not_digitsShape s hs
    rw [of_decide_eq_true heq] at h3
    rw [h3] at h
    exact Bool.noConfusion h

theorem stringMk_data (s : String) : String.mk s.data = s := by
  cases s
  rfl

theorem ratNumCast {q : ℚ} (h : q.den = 1) : (q.num : ℚ) = q := by
  have := Rat.num_div_den q
  rw [h] at this
  simpa using this

theorem renderRat_int {q : ℚ} (h : q.den = 1) :
    renderRat q = intToChars q.num := by
  rw [renderRat, if_pos h]

theorem mem_escapeQuotes {c : Char} {f : List Char}
    (h : c ∈ escapeQuotes f) : c = '"' ∨ c ∈ f := by
  induction f with
  | nil => simp [escapeQuotes] at h
  | cons x xs ih =>
    rw [escapeQuotes] at h
    split at h
    · rcases List.mem_cons.mp h with rfl | h2
      · exact Or.inl rfl
      rcases List.mem_cons.mp h2 with rfl | h3
      · exact Or.inl rfl
      · rcases ih h3 with h4 | h4
        · exact Or.inl h4
        · exact Or.inr (List.mem_cons_of_mem x h4)
    · rcases List.mem_cons.mp h with rfl | h2
      · exact Or.inr (List.mem_cons_self c xs)
      · rcases ih h2 with h4 | h4
        · exact Or.inl h4
        · exact Or.inr (List.mem_cons_of_mem x h4)

theorem mem_renderField {c : Char} {f : List Char}
    (h : c ∈ renderField f) : c = '"' ∨ c ∈ f := by
  rw [renderField] at h
  split at h
  · rcases List.mem_cons.mp h with rfl | h2
    · exact Or.inl rfl
    rcases List.mem_append.mp h2 with h3 | h3
    · exact mem_escapeQuotes h3
    · rw [List.mem_singleton.mp h3]
      exact Or.inl rfl
  · exact Or.inr h

theorem mem_joinComma {c : Char} {fields : List (List Char)}
    (h : c ∈ joinComma fields) :
    c = ',' ∨ c = '"' ∨ ∃ f ∈ fields, c ∈ f := by
  induction fields with
  | nil => simp [joinComma] at h
  | cons f fs ih =>
    cases fs with
    | nil =>
      rw [joinComma] at h
      rcases mem_renderField h with rfl | h2
      · exact Or.inr (Or.inl rfl)
      · exact Or.inr (Or.inr ⟨f, List.mem_cons_self f [], h2⟩)
    | cons f2 fs2 =>
      have hjc : joinComma (f :: f2 :: fs2) =
          renderField f ++ ',' :: joinComma (f2 :: fs2) := by
        rw [joinComma]
        exact fun hcon => List.noConfusion hcon
      rw [hjc] at h
      rcases List.mem_append.mp h with h2 | h2
      · rcases mem_renderField h2 with rfl | h3
        · exact Or.inr (Or.inl rfl)
        · exact Or.inr (Or.inr ⟨f, List.mem_cons_self f _, h3⟩)
      · rcases List.mem_cons.mp h2 with rfl | h3
        · exact Or.inl rfl
        · rcases ih h3 with h4 | h4 | ⟨g, hg, hcg⟩
          · exact Or.inl h4
          · exact Or.inr (Or.inl h4)
          · exact Or.inr (Or.inr ⟨g, List.mem_cons_of_mem f hg, hcg⟩)

theorem renderField_ne_nil {f : List Char} (h : f ≠ []) :
    renderField f ≠ [] := by
  rw [renderField]
  split
  · exact fun hcon => List.noConfusion hcon
  · exact h

theorem joinComma_ne_nil {f : List Char} (fs : List (List Char))
    (hf : f ≠ []) : joinComma (f :: fs) ≠ [] := by
  cases fs with
  | nil =>
    rw [joinComma]
    exact renderField_ne_nil hf
  | cons f2 fs2 =>
    have hjc : joinComma (f :: f2 :: fs2) =
        renderField f ++ ',' :: joinComma (f2 :: fs2) := by
      rw [joinComma]
      exact fun hcon => List.noConfusion hcon
    rw [hjc]
    intro hcon
    exact List.noConfusion (List.append_eq_nil.mp hcon).2

theorem getD_range_map {α : Type} (l : List α) (d : α) :
    (List.range l.length).map (fun i => l.getD i d) = l := by
  apply List.ext_getElem
  · simp
  · intro j h1 h2
    simp only [List.getElem_map, List.getElem_range]
    exact List.getD_eq_getElem l d h2

theorem isNaField_nil : isNaField [] = true := by decide

/-- A field rendered from an integral numeric cell passes the numeric
sniff and reads back as the same number. -/

theorem fieldNumeric_int (i : ℤ) : fieldNumeric (intToChars i) = true := by
  rw [fieldNumeric, parseNumField_intToChars]
  simp

theorem cell_good {t : Table} {n : ℕ} (hgood : ∀ c ∈ t, GoodColumn n c)
    {c : Column} (hc : c ∈ t) {x : Cell} (hx : x ∈ c.cells) :
    GoodNumCell x ∨ GoodStrCell x := by
  rcases (hgood c hc).2.2.2 with ⟨_, hall⟩ | ⟨_, hall⟩
  · exact Or.inl (hall x hx)
  · exact Or.inr (hall x hx)

theorem mem_rowsOf {t : Table} {n : ℕ} (hlen : ∀ c ∈ t, c.cells.length = n)
    {r : List Cell} (hr : r ∈ rowsOf t) {x : Cell} (hx : x ∈ r) :
    ∃ c ∈ t, x ∈ c.cells := by
  simp only [rowsOf, List.mem_map] at hr
  obtain ⟨i, hi, rfl⟩ := hr
  simp only [List.mem_map] at hx
  obtain ⟨c, hc, rfl⟩ := hx
  refine ⟨c, hc, ?_⟩
  have hnn : tableNRows t = n := by
    cases t with
    | nil => exact absurd hc (List.not_mem_nil c)
    | cons c0 rest =>
      rw [tableNRows]
      exact hlen c0 (List.mem_cons_self c0 rest)
  rw [List.mem_range, hnn] at hi
  have hilen : i < c.cells.length := by rw [hlen c hc]; exact hi
  rw [List.getD_eq_getElem c.cells Cell.null hilen]
  exact List.getElem_mem hilen

theorem intToChars_ne_nil (i : ℤ) : intToChars i ≠ [] := by
  rw [intToChars]
  split
  · exact fun h => List.noConfusion h
  · exact natToChars_ne_nil _

theorem renderCell_good {x : Cell} (h : GoodNumCell x ∨ GoodStrCell x) :
    renderCell x ≠ [] ∧ ∀ ch ∈ renderCell x, ¬ch = '\n' := by
  rcases h with ⟨q, rfl, hden⟩ | ⟨s, rfl, hna, _, _, _, hch⟩
  · rw [show renderCell (Cell.num q) = renderRat q from rfl, renderRat_int hden]
    refine ⟨intToChars_ne_nil _, ?_⟩
    intro ch hch2
    rcases intToChars_chars _ ch hch2 with hd | rfl
    · intro h2
      rw [h2] at hd
      exact absurd hd (by decide)
    · decide
  · rw [show renderCell (Cell.str s) = s.data from rfl]
    refine ⟨?_, fun ch hm => (hch ch hm).1⟩
    intro hcon
    rw [hcon, isNaField_nil] at hna
    exact Bool.noConfusion hna

/-- The records of the exported CSV are exactly the header line and the
rendered rows: every record is non-blank and free of raw newlines, so the
record splitter recovers them. -/

theorem splitLines_toCsv (t : Table) (n : ℕ) (ht : t ≠ [])
    (hgood : ∀ c ∈ t, GoodColumn n c) :
    splitLines (toCsv t) =
      joinComma (t.map (fun c => c.name.data)) ::
        (rowsOf t).map (fun r => joinComma (r.map renderCell)) := by
  have hlen : ∀ c ∈ t, c.cells.length = n := fun c hc => (hgood c hc).1
  rw [toCsv]
  apply splitLines_foldr
  intro l hl
  rcases List.mem_cons.mp hl with rfl | hmem
  · constructor
    · cases t with
      | nil => exact absurd rfl ht
      | cons c0 rest =>
        rw [List.map_cons]
        exact joinComma_ne_nil _ (hgood c0 (List.mem_cons_self c0 rest)).2.1
    · intro ch hch
      rcases mem_joinComma hch with rfl | rfl | ⟨f, hf, hcf⟩
      · decide
      · decide
      · obtain ⟨c, hc, rfl⟩ := List.mem_map.mp hf
        exact ((hgood c hc).2.2.1 ch hcf).1
  · obtain ⟨r, hr, rfl⟩ := List.mem_map.mp hmem
    have hrform := hr
    simp only [rowsOf, List.mem_map] at hrform
    obtain ⟨i, hi, rfl⟩ := hrform
    rw [List.mem_range] at hi
    constructor
    · cases t with
      | nil => exact absurd rfl ht
      | cons c0 rest =>
        rw [List.map_cons, List.map_cons]
        refine joinComma_ne_nil _ ?_
        have hilen : i < c0.cells.length := hi
        have hmem2 : c0.cells.getD i Cell.null ∈ c0.cells := by
          rw [List.getD_eq_getElem c0.cells Cell.null hilen]
          exact List.getElem_mem hilen
        exact (renderCell_good
          (cell_good hgood (List.mem_cons_self c0 rest) hmem2)).1
    · intro ch hch
      rcases mem_joinComma hch with rfl | rfl | ⟨f, hf, hcf⟩
      · decide
      · decide
      · obtain ⟨x, hx, rfl⟩ := List.mem_map.mp hf
        have hxc := mem_rowsOf hlen hr hx
        obtain ⟨c, hc, hxin⟩ := hxc
        exact (renderCell_good (cell_good hgood hc hxin)).2 ch hcf

theorem csvParse_cons (header : List Char) (dataLines : List (List Char))
    (input : List Char) (hsp : splitLines input = header :: dataLines) :
    csvParse input =
      if (dataLines.map (parseFields [])).all
          (fun r => decide (r.length = (parseFields [] header).length)) then
        Except.ok ((List.range (parseFields [] header).length).map (fun j =>
          let tc := inferCells
            ((dataLines.map (parseFields [])).map (fun r => r.getD j []))
          { name := String.mk ((parseFields [] header).getD j []),
            dtype := tc.1, cells := tc.2 }))
      else Except.error LoadError.malformed := by
  rw [csvParse.eq_def, hsp]

theorem getD_map_lt {α β : Type} (f : α → β) (l : List α) {j : ℕ}
    (hj : j < l.length) (d : β) : (l.map f).getD j d = f l[j] := by
  have hj2 : j < (l.map f).length := by
    rw [List.length_map]
    exact hj
  rw [List.getD_eq_getElem _ d hj2, List.getElem_map]

theorem getD_range_map_of_len {α : Type} {l : List α} {n : ℕ} (d : α)
    (hl : l.length = n) :
    (List.range n).map (fun i => l.getD i d) = l := by
  subst hl
  exact getD_range_map l d

/-- Reading the rendered rows column-wise recovers each column's rendered
cells. -/

theorem fields_col (t : Table) (n : ℕ) (hlen : ∀ c ∈ t, c.cells.length = n)
    {j : ℕ} (hj : j < t.length) :
    ((rowsOf t).map (fun r => r.map renderCell)).map (fun r => r.getD j []) =
      t[j].cells.map renderCell := by
  have hnn : tableNRows t = n := by
    cases t with
    | nil => exact absurd hj (by simp)
    | cons c0 rest =>
      rw [tableNRows]
      exact hlen c0 (List.mem_cons_self c0 rest)
  rw [List.map_map, rowsOf, hnn, List.map_map]
  have hstep : List.map
      (((fun r : List (List Char) => r.getD j []) ∘
          fun r : List Cell => List.map renderCell r) ∘ fun i =>
        List.map (fun c => c.cells.getD i Cell.null) t) (List.range n) =
      List.map (fun i => renderCell (t[j].cells.getD i Cell.null))
        (List.range n) := by
    apply List.map_congr_left
    intro i _
    show ((t.map (fun c => c.cells.getD i Cell.null)).map renderCell).getD j [] = _
    rw [List.map_map, getD_map_lt _ t hj]
    rfl
  rw [hstep,
    show (fun i => renderCell (t[j].cells.getD i Cell.null)) =
      renderCell ∘ (fun i => t[j].cells.getD i Cell.null) from rfl,
    ← List.map_map,
    getD_range_map_of_len Cell.null (hlen t[j] (List.getElem_mem hj))]

/-- Reading back an integral numeric column: every rendered field passes
the sniff and parses to the original value. -/

theorem inferCells_num (cells : List Cell)
    (hall : ∀ x ∈ cells, GoodNumCell x) :
    inferCells (cells.map renderCell) = (ColType.numeric, cells) := by
  have hfn : ∀ f ∈ cells.map renderCell, fieldNumeric f = true := by
    intro f hf
    obtain ⟨x, hx, rfl⟩ := List.mem_map.mp hf
    obtain ⟨q, rfl, hden⟩ := hall x hx
    rw [show renderCell (Cell.num q) = renderRat q from rfl, renderRat_int hden]
    exact fieldNumeric_int q.num
  rw [inferCells, if_pos (List.all_eq_true.mpr hfn)]
  rw [List.map_map]
  have hpt : ∀ x ∈ cells,
      ((fun f => if isNaField f then Cell.null
        else
          match parseNumField f with
          | some q => Cell.num q
          | none => Cell.null) ∘ renderCell) x = x := by
    intro x hx
    obtain ⟨q, rfl, hden⟩ := hall x hx
    show (if isNaField (renderRat q) then Cell.null
      else
        match parseNumField (renderRat q) with
        | some q2 => Cell.num q2
        | none => Cell.null) = Cell.num q
    rw [renderRat_int hden,
      isNaField_of_digitsShape (digitsShape_intToChars q.num), if_neg
        (fun h => Bool.noConfusion h), parseNumField_intToChars,
      ratNumCast hden]
  rw [List.map_congr_left hpt, List.map_id']

/-- Reading back a text column of preservable strings: the sniff fails on
the first field, and every field reads back as the original string. -/

theorem inferCells_str (cells : List Cell) (hne : cells ≠ [])
    (hall : ∀ x ∈ cells, GoodStrCell x) :
    inferCells (cells.map renderCell) = (ColType.text, cells) := by
  have hnum : ¬(cells.map renderCell).all fieldNumeric = true := by
    cases cells with
    | nil => exact absurd rfl hne
    | cons x xs =>
      obtain ⟨s, rfl, hna, hpn, hinf, _, _⟩ := hall x (List.mem_cons_self x xs)
      intro hcon
      have := List.all_eq_true.mp hcon (renderCell (Cell.str s))
        (List.mem_map.mpr ⟨Cell.str s, List.mem_cons_self _ xs, rfl⟩)
      rw [show renderCell (Cell.str s) = s.data from rfl, fieldNumeric, hna,
        hinf, hpn] at this
      exact Bool.noConfusion this
  have hbool : ¬(cells.map renderCell).all isBoolField = true := by
    cases cells with
    | nil => exact absurd rfl hne
    | cons x xs =>
      obtain ⟨s, rfl, _, _, _, hb, _⟩ := hall x (List.mem_cons_self x xs)
      intro hcon
      have := List.all_eq_true.mp hcon (renderCell (Cell.str s))
        (List.mem_map.mpr ⟨Cell.str s, List.mem_cons_self _ xs, rfl⟩)
      rw [show renderCell (Cell.str s) = s.data from rfl, hb] at this
      exact Bool.noConfusion this
  rw [inferCells, if_neg hnum, if_neg hbool]
  rw [List.map_map]
  have hpt : ∀ x ∈ cells,
      ((fun f => if isNaField f then Cell.null
        else Cell.str (String.mk f)) ∘ renderCell) x = x := by
    intro x hx
    obtain ⟨s, rfl, hna, _, _, _, _⟩ := hall x hx
    show (if isNaField s.data then Cell.null
      else Cell.str (String.mk s.data)) = Cell.str s
    rw [hna, if_neg (fun h => Bool.noConfusion h), stringMk_data]
  rw [List.map_congr_left hpt, List.map_id']

theorem csv_roundtrip (t : Table) (n : ℕ) (ht : t ≠ []) (hn : 0 < n)
    (hgood : ∀ c ∈ t, GoodColumn n c) :
    csvParse (toCsv t) = Except.ok t := by
  have hlen : ∀ c ∈ t, c.cells.length = n := fun c hc => (hgood c hc).1
  have hsplit := splitLines_toCsv t n ht hgood
  have hnames : parseFields [] (joinComma (t.map (fun c => c.name.data))) =
      t.map (fun c => c.name.data) := by
    refine parseFields_joinComma _ ?_
    cases t with
    | nil => exact absurd rfl ht
    | cons c0 rest => exact fun h => List.noConfusion h
  have hrowsnn : ∀ r ∈ rowsOf t, r.map renderCell ≠ [] := by
    intro r hr
    simp only [rowsOf, List.mem_map] at hr
    obtain ⟨i, _, rfl⟩ := hr
    cases t with
    | nil => exact absurd rfl ht
    | cons c0 rest => exact fun h => List.noConfusion h
  have hrows : ((rowsOf t).map (fun r => joinComma (r.map renderCell))).map
      (parseFields []) = (rowsOf t).map (fun r => r.map renderCell) := by
    rw [List.map_map]
    exact List.map_congr_left
      (fun r hr => parseFields_joinComma _ (hrowsnn r hr))
  rw [csvParse_cons _ _ _ hsplit, hnames, hrows]
  have hall : ((rowsOf t).map (fun r => r.map renderCell)).all
      (fun r => decide (r.length = (t.map (fun c => c.name.data)).length)) =
        true := by
    rw [List.all_eq_true]
    intro r hr
    obtain ⟨rr, hrr, rfl⟩ := List.mem_map.mp hr
    simp only [rowsOf, List.mem_map] at hrr
    obtain ⟨i, _, rfl⟩ := hrr
    simp
  rw [if_pos hall]
  congr 1
  apply List.ext_getElem
  · simp
  · intro j h1 h2
    have hjt : j < t.length := h2
    rw [List.getElem_map, List.getElem_range]
    show (Column.mk
      (String.mk ((t.map (fun c => c.name.data)).getD j []))
      (inferCells (((rowsOf t).map (fun r => r.map renderCell)).map
        (fun r => r.getD j []))).1
      (inferCells (((rowsOf t).map (fun r => r.map renderCell)).map
        (fun r => r.getD j []))).2) = t[j]
    rw [show (t.map (fun c => c.name.data)).getD j [] = t[j].name.data from
      getD_map_lt _ t hjt [], stringMk_data, fields_col t n hlen hjt]
    rcases (hgood t[j] (List.getElem_mem hjt)).2.2.2 with ⟨hdt, hcells⟩ |
      ⟨hdt, hcells⟩
    · rw [inferCells_num _ hcells, ← hdt]
    · have hcne : t[j].cells ≠ [] := by
        have := hlen t[j] (List.getElem_mem hjt)
        intro hcon
        rw [hcon] at this
        simp at this
        omega
      rw [inferCells_str _ hcne hcells, ← hdt]

/-- **C1** (corrected).  The range check counts every cell on which the
inclusive `between` test fails; a null cell fails it, so the reported count
is the spec's count of non-null out-of-range values *plus* the number of
nulls — nulls are counted as violations, not excluded.  On the null-free
example column `[5, 50, 150, -1]` with bounds `[0, 100]` the check reports
exactly 2 violations, as the claim states. -/

theorem claim_C1 :
    (∀ (cells : List Cell) (lo hi : ℚ),
        (∀ c ∈ cells, c = Cell.null ∨ ∃ q, c = Cell.num q) →
        rangeViolationCount cells lo hi =
          specRangeViolationCount cells lo hi + nullCount cells) ∧
    rangeViolationCount [Cell.num 5, Cell.num 50, Cell.num 150, Cell.num (-1)] 0 100 = 2 :=
  ⟨rangeViolationCount_split, by decide⟩

/-- Witness for `claim_C1` at the concrete numeric column `[null, 3, 200]`
with bounds `[0, 100]`. -/

theorem claim_C1_witness :
    rangeViolationCount [Cell.null, Cell.num 3, Cell.num 200] 0 100 =
      specRangeViolationCount [Cell.null, Cell.num 3, Cell.num 200] 0 100 +
        nullCount [Cell.null, Cell.num 3, Cell.num 200] :=
  claim_C1.1 _ 0 100 (by
    intro c hc
    simp only [List.mem_cons, List.not_mem_nil, or_false] at hc
    rcases hc with rfl | rfl | rfl
    · exact Or.inl rfl
    · exact Or.inr ⟨3, rfl⟩
    · exact Or.inr ⟨200, rfl⟩)

/-- Counterexample to **C1** as stated: on the numeric column `[null]` with
bounds `[0, 100]` the code reports 1 violation, while the claim's count of
non-null out-of-range values is 0 — the null is not excluded. -/

theorem claim_C1_counterexample :
    rangeViolationCount [Cell.null] 0 100 = 1 ∧
    rangeViolationCount [Cell.null] 0 100 ≠ specRangeViolationCount [Cell.null] 0 100 := by
  decide

/-- **C2** (corrected).  The format check counts every cell whose
`str.match(pattern, na=False)` entry is `False`: non-matching strings,
non-string values and nulls alike, so the reported count is the spec's
count of non-matching non-null values *plus* the number of nulls.  On the
example `["a@b.com", "bad", "", "x@y.z"]` the check reports 2 invalid
values — `"bad"` and the empty string — not 1: the empty string counts as
non-null-non-matching exactly as the second spec sentence says, which
contradicts the stated total of 1. -/

theorem claim_C2 :
    (∀ cells : List Cell,
        emailInvalidCount cells = specEmailInvalidCount cells + nullCount cells) ∧
    emailInvalidCount
      [Cell.str "a@b.com", Cell.str "bad", Cell.str "", Cell.str "x@y.z"] = 2 ∧
    emailMatch "a@b.com" = true ∧ emailMatch "bad" = false ∧
    emailMatch "" = false ∧ emailMatch "x@y.z" = true :=
  ⟨emailInvalidCount_split, by decide, by decide, by decide, by decide, by decide⟩

/-- Counterexample to **C2** as stated: on the example column the code
reports 2 invalid values, not 1 — the empty string is counted as invalid
alongside `"bad"`. -/

theorem claim_C2_counterexample :
    emailInvalidCount
      [Cell.str "a@b.com", Cell.str "bad", Cell.str "", Cell.str "x@y.z"] = 2 ∧
    emailInvalidCount
      [Cell.str "a@b.com", Cell.str "bad", Cell.str "", Cell.str "x@y.z"] ≠ 1 := by
  decide

/-- **C3** (corrected).  `Series.mean()`/`median()` raise the type-mismatch
error only on text and categorical columns; there the error occurs before
any assignment to `st.session_state`, so the step surfaces exactly that
error and leaves the session state — current table and action log —
unchanged.  The original claim's "every non-numeric column" is false: on a
datetime column the mean/median of the timestamps succeeds and the fill
commits (see the counterexample). -/

theorem claim_C3 (st : SessionState) (t : Table) (name : String) (c : Column)
    (tr : Treatment) (hdf : st.df = some t) (hc : findCol t name = some c)
    (hdtype : c.dtype = ColType.text ∨ c.dtype = ColType.categorical)
    (htr : tr = Treatment.fillMean ∨ tr = Treatment.fillMedian) :
    missingStep st name tr = (st, some MissingError.typeMismatch) := by
  have happ : applyTreatment t name tr = .error .typeMismatch := by
    rcases hdtype with h | h <;> rcases htr with rfl | rfl <;>
      simp [applyTreatment, hc, h]
  simp only [missingStep, hdf, happ]

/-- Witness for `claim_C3`: filling the text column `"a"` with the mean
errors and leaves the session state unchanged. -/

theorem claim_C3_witness :
    missingStep ⟨some [⟨"a", ColType.text, [Cell.null, Cell.str "x"]⟩], []⟩ "a"
      Treatment.fillMean =
      (⟨some [⟨"a", ColType.text, [Cell.null, Cell.str "x"]⟩], []⟩,
        some MissingError.typeMismatch) :=
  claim_C3 _ _ "a" _ _ rfl rfl (Or.inl rfl) (Or.inl rfl)

/-- Counterexample to **C3** as stated: on the datetime column
`[dt 100, null]` — non-numeric — `Fill with mean` does not error: pandas
takes the mean of the timestamps, the fill commits, and the session state
is mutated (table changed, log entry appended). -/

theorem claim_C3_counterexample :
    missingStep ⟨some [⟨"a", ColType.datetime, [Cell.dt 100, Cell.null]⟩], []⟩
        "a" Treatment.fillMean =
      (⟨some [⟨"a", ColType.datetime, [Cell.dt 100, Cell.dt 100]⟩],
        ["Filled missing a"]⟩, none) ∧
    ColType.datetime ≠ ColType.numeric :=
  ⟨by decide, by decide⟩

/-- **C6** (corrected).  Filling a column that has at least one non-null
value (for mean/median: a numeric column) leaves no nulls and keeps every
previously non-null value in place.  The restriction to columns with a
non-null value is forced: on an all-null column the mean is `NaN` and
`fillna(NaN)` leaves every null in place (see the counterexample). -/

theorem claim_C6 (t : Table) (name : String) (tr : Treatment) (c : Column)
    (hc : findCol t name = some c)
    (hnn : nonNullVals c.cells ≠ [])
    (htr : tr = Treatment.fillMean ∨ tr = Treatment.fillMedian ∨
      tr = Treatment.fillMode)
    (hnum : tr = Treatment.fillMean ∨ tr = Treatment.fillMedian →
      c.dtype = ColType.numeric ∧ ∀ x ∈ c.cells, x = Cell.null ∨ isNumCell x = true) :
    ∃ t2, applyTreatment t name tr = Except.ok t2 ∧
      ∃ c2, findCol t2 name = some c2 ∧
        (∀ x ∈ c2.cells, x ≠ Cell.null) ∧
        (∀ (i : ℕ) (x : Cell), c.cells[i]? = some x → x ≠ Cell.null →
          c2.cells[i]? = some x) := by
  have hpost : ∀ v : Cell, v ≠ Cell.null →
      ∃ c2, findCol (setColCells t name (fillWith c.cells v)) name = some c2 ∧
        (∀ x ∈ c2.cells, x ≠ Cell.null) ∧
        (∀ (i : ℕ) (x : Cell), c.cells[i]? = some x → x ≠ Cell.null →
          c2.cells[i]? = some x) := by
    intro v hv
    exact ⟨{ c with cells := fillWith c.cells v },
      findCol_setColCells t name c _ hc, fillWith_not_null hv,
      fun i x hx hxnn => fillWith_preserves c.cells v i x hx hxnn⟩
  rcases htr with rfl | rfl | rfl
  · obtain ⟨hdt, hkd⟩ := hnum (Or.inl rfl)
    obtain ⟨q, hq⟩ := colMean_isSome (numericVals_ne_nil hnn hkd)
    refine ⟨setColCells t name (fillWith c.cells (Cell.num q)), ?_,
      hpost _ (by simp)⟩
    simp only [applyTreatment, hc, if_pos (Or.inl hdt), hq, Option.map_some',
      fillWithOpt]
  · obtain ⟨hdt, hkd⟩ := hnum (Or.inr rfl)
    obtain ⟨q, hq⟩ := colMedian_isSome (numericVals_ne_nil hnn hkd)
    refine ⟨setColCells t name (fillWith c.cells (Cell.num q)), ?_,
      hpost _ (by simp)⟩
    simp only [applyTreatment, hc, if_pos (Or.inl hdt), hq, Option.map_some',
      fillWithOpt]
  · obtain ⟨m, hm⟩ := nonNullVals_ne_nil_of_mode hnn
    refine ⟨setColCells t name (fillWith c.cells m), ?_,
      hpost m (modeValue_not_null hm)⟩
    simp only [applyTreatment, hc, hm]

/-- Witness for `claim_C6`: filling the numeric column `[null, 2]` with its
mean succeeds, removes the null and keeps the 2. -/

theorem claim_C6_witness :
    ∃ t2, applyTreatment [⟨"a", ColType.numeric, [Cell.null, Cell.num 2]⟩] "a"
        Treatment.fillMean = Except.ok t2 ∧
      ∃ c2, findCol t2 "a" = some c2 ∧
        (∀ x ∈ c2.cells, x ≠ Cell.null) ∧
        (∀ (i : ℕ) (x : Cell), [Cell.null, Cell.num 2][i]? = some x →
          x ≠ Cell.null → c2.cells[i]? = some x) :=
  claim_C6 [⟨"a", ColType.numeric, [Cell.null, Cell.num 2]⟩] "a"
    Treatment.fillMean ⟨"a", ColType.numeric, [Cell.null, Cell.num 2]⟩
    rfl (by decide) (Or.inl rfl) (fun _ => ⟨rfl, by decide⟩)

/-- Counterexample to **C6** as stated: filling the all-null numeric column
`[null]` with its mean succeeds but changes nothing — the mean of an
all-null column is `NaN` and `fillna(NaN)` is the identity — so the column
still contains a null after the fill. -/

theorem claim_C6_counterexample :
    applyTreatment [⟨"a", ColType.numeric, [Cell.null]⟩] "a" Treatment.fillMean =
      Except.ok [⟨"a", ColType.numeric, [Cell.null]⟩] ∧
    Cell.null ∈ [Cell.null] :=
  ⟨rfl, List.mem_singleton_self _⟩

/-- **C9** (corrected).  On a kind-homogeneous column, the value
`mode()[0]` used by `Fill with mode` is a most-frequent non-null value that
is least, in pandas' sort order, among all most-frequent values — not the
first most-frequent value in appearance order (see the counterexample). -/

theorem claim_C9 (t : Table) (name : String) (c : Column) (m : Cell)
    (hc : findCol t name = some c)
    (hkind : (∀ x ∈ nonNullVals c.cells, isNumCell x = true) ∨
      (∀ x ∈ nonNullVals c.cells, isStrCell x = true))
    (hm : modeValue? c.cells = some m) :
    applyTreatment t name Treatment.fillMode =
      Except.ok (setColCells t name (fillWith c.cells m)) ∧
    m ∈ nonNullVals c.cells ∧
    (∀ v ∈ nonNullVals c.cells,
      (nonNullVals c.cells).count v ≤ (nonNullVals c.cells).count m) ∧
    (∀ v ∈ nonNullVals c.cells,
      (nonNullVals c.cells).count v = (nonNullVals c.cells).count m →
        cellLE m v = true) := by
  refine ⟨?_, modeValue_spec hkind hm⟩
  simp only [applyTreatment, hc, hm]

/-- Witness for `claim_C9`: on the column `[null, 3, 3, 1, 1]` the fill
commits `fillna(1)` — `1` being the least of the tied modes `{1, 3}`. -/

theorem claim_C9_witness :
    applyTreatment
        [⟨"a", ColType.numeric,
          [Cell.null, Cell.num 3, Cell.num 3, Cell.num 1, Cell.num 1]⟩] "a"
        Treatment.fillMode =
      Except.ok (setColCells
        [⟨"a", ColType.numeric,
          [Cell.null, Cell.num 3, Cell.num 3, Cell.num 1, Cell.num 1]⟩] "a"
        (fillWith [Cell.null, Cell.num 3, Cell.num 3, Cell.num 1, Cell.num 1]
          (Cell.num 1))) :=
  (claim_C9
    [⟨"a", ColType.numeric,
      [Cell.null, Cell.num 3, Cell.num 3, Cell.num 1, Cell.num 1]⟩] "a"
    ⟨"a", ColType.numeric,
      [Cell.null, Cell.num 3, Cell.num 3, Cell.num 1, Cell.num 1]⟩
    (Cell.num 1) rfl (Or.inl (by decide)) (by decide)).1

/-- Counterexample to **C9** as stated: on the column `[null, 3, 3, 1, 1]`
the values 3 and 1 are tied for most frequent; the first most-frequent
value (the spec's words) is 3, but the code fills with `mode()[0] = 1`,
pandas returning the tied modes in sorted order. -/

theorem claim_C9_counterexample :
    applyTreatment
        [⟨"a", ColType.numeric,
          [Cell.null, Cell.num 3, Cell.num 3, Cell.num 1, Cell.num 1]⟩] "a"
        Treatment.fillMode =
      Except.ok
        [⟨"a", ColType.numeric,
          [Cell.num 1, Cell.num 3, Cell.num 3, Cell.num 1, Cell.num 1]⟩] ∧
    specFirstMode [Cell.null, Cell.num 3, Cell.num 3, Cell.num 1, Cell.num 1] =
      some (Cell.num 3) ∧
    (Cell.num 1 : Cell) ≠ Cell.num 3 :=
  ⟨rfl, by decide, by decide⟩

/-- **C10** (confirmed).  Applying `str.strip()` or `str.title()` to a
column leaves every null cell null (the `.str` accessor propagates `NaN`),
leaves every other column unchanged, and preserves both the number of
columns and every column's row count. -/

theorem claim_C10 (t : Table) (name : String) (f : Cell → Cell)
    (hf : f = stripCell ∨ f = titleCell) :
    (mapColumn t name f).length = t.length ∧
    ∀ (i : ℕ) (col : Column), t[i]? = some col →
      ∃ col2, (mapColumn t name f)[i]? = some col2 ∧
        col2.name = col.name ∧ col2.cells.length = col.cells.length ∧
        (col.name ≠ name → col2 = col) ∧
        (∀ j : ℕ, col.cells[j]? = some Cell.null →
          col2.cells[j]? = some Cell.null) := by
  have hnull : f Cell.null = Cell.null := by rcases hf with rfl | rfl <;> rfl
  constructor
  · simp [mapColumn]
  · intro i col hcol
    refine ⟨if col.name = name then { col with cells := col.cells.map f }
      else col, ?_, ?_, ?_, ?_, ?_⟩
    · simp [mapColumn, List.getElem?_map, hcol]
    · split <;> rfl
    · split <;> simp
    · intro hne
      rw [if_neg hne]
    · intro j hj
      split
      · simp [List.getElem?_map, hj, hnull]
      · exact hj

/-- Witness for `claim_C10`: trimming column `"a"` of a two-column table
keeps its null, keeps column `"b"` intact and preserves all lengths. -/

theorem claim_C10_witness :
    (mapColumn [⟨"a", ColType.text, [Cell.null, Cell.str " x "]⟩,
        ⟨"b", ColType.numeric, [Cell.num 1, Cell.num 2]⟩] "a"
        stripCell).length =
      ([⟨"a", ColType.text, [Cell.null, Cell.str " x "]⟩,
        ⟨"b", ColType.numeric, [Cell.num 1, Cell.num 2]⟩] : Table).length ∧
    ∀ (i : ℕ) (col : Column),
      ([⟨"a", ColType.text, [Cell.null, Cell.str " x "]⟩,
        ⟨"b", ColType.numeric, [Cell.num 1, Cell.num 2]⟩] : Table)[i]? =
        some col →
      ∃ col2,
        (mapColumn [⟨"a", ColType.text, [Cell.null, Cell.str " x "]⟩,
          ⟨"b", ColType.numeric, [Cell.num 1, Cell.num 2]⟩] "a"
          stripCell)[i]? = some col2 ∧
        col2.name = col.name ∧ col2.cells.length = col.cells.length ∧
        (col.name ≠ "a" → col2 = col) ∧
        (∀ j : ℕ, col.cells[j]? = some Cell.null →
          col2.cells[j]? = some Cell.null) :=
  claim_C10 [⟨"a", ColType.text, [Cell.null, Cell.str " x "]⟩,
    ⟨"b", ColType.numeric, [Cell.num 1, Cell.num 2]⟩] "a" stripCell
    (Or.inl rfl)

/-- **C7** (confirmed).  In the conversion loop, a column whose conversion
fails keeps its values and declared type and has its name reported in the
per-column error list, while any sibling column whose conversion succeeds
is still converted — one bad column does not abort the others. -/

theorem claim_C7 (t : Table) (choice : String → Option Target) (i : ℕ)
    (c : Column) (hc : t[i]? = some c) :
    (∀ tgt, choice c.name = some tgt → convertColumn c tgt = none →
      (standardizeTypes t choice).1[i]? = some c ∧
        c.name ∈ (standardizeTypes t choice).2) ∧
    (∀ tgt c2, choice c.name = some tgt → convertColumn c tgt = some c2 →
      (standardizeTypes t choice).1[i]? = some c2) := by
  have hmem : c ∈ t := List.getElem?_mem hc
  constructor
  · intro tgt htgt hconv
    constructor
    · simp only [standardizeTypes, List.getElem?_map, hc]
      simp [stdStep, htgt, hconv]
    · simp only [standardizeTypes]
      refine List.mem_map.mpr ⟨c, List.mem_filter.mpr ⟨hmem, ?_⟩, rfl⟩
      simp [stdStep, htgt, hconv]
  · intro tgt c2 htgt hconv
    simp only [standardizeTypes, List.getElem?_map, hc]
    simp [stdStep, htgt, hconv]

/-- Witness for `claim_C7`: converting every column to numeric, column
`"a"` (value `"abc"`) fails and is kept unchanged and reported, while
sibling column `"b"` (value `"7"`) is converted. -/

theorem claim_C7_witness :
    ((standardizeTypes [⟨"a", ColType.text, [Cell.str "abc"]⟩,
        ⟨"b", ColType.text, [Cell.str "7"]⟩]
        (fun _ => some Target.numeric)).1[0]? =
      some ⟨"a", ColType.text, [Cell.str "abc"]⟩ ∧
      "a" ∈ (standardizeTypes [⟨"a", ColType.text, [Cell.str "abc"]⟩,
        ⟨"b", ColType.text, [Cell.str "7"]⟩]
        (fun _ => some Target.numeric)).2) :=
  (claim_C7 [⟨"a", ColType.text, [Cell.str "abc"]⟩,
      ⟨"b", ColType.text, [Cell.str "7"]⟩]
      (fun _ => some Target.numeric) 0
      ⟨"a", ColType.text, [Cell.str "abc"]⟩ rfl).1
    Target.numeric rfl (by decide)

/-- **C8** (corrected).  The CSV export/reload cycle reproduces the table
cell-for-cell, in column order and with the declared types, for a
non-empty table of numeric and text columns with no nulls — provided the
numeric values are integral and no text cell is a string `read_csv` would
retype or drop: a numeric-looking string, an NA spelling (including the
empty string), an infinity spelling, a boolean spelling (`True`/`TRUE`/
`true`/`False`/`FALSE`/`false`), or a string containing a line break
(and column names are unique, non-empty and free of line breaks).  Without
those provisos the claim fails: `read_csv` re-infers column types and NA
values from the rendered text, so e.g. the text cell `"NA"` comes back as
a null in a numeric column (see the counterexample), the text cell
`"123"` as the number 123, and the text cell `"True"` as a boolean. -/

theorem claim_C8 (t : Table) (n : ℕ) (ht : t ≠ []) (hn : 0 < n)
    (hnodup : (t.map (fun c => c.name)).Nodup)
    (hgood : ∀ c ∈ t, GoodColumn n c) :
    csvParse (toCsv t) = Except.ok t :=
  csv_roundtrip t n ht hn hgood

/-- Witness for `claim_C8`: a two-column table — integral numerics and
strings exercising both the plain and the quoted field paths — survives
the cycle. -/

theorem claim_C8_witness :
    csvParse (toCsv [⟨"a", ColType.numeric, [Cell.num 1, Cell.num (-2)]⟩,
        ⟨"b", ColType.text, [Cell.str "x y", Cell.str "q\"z,w"]⟩]) =
      Except.ok [⟨"a", ColType.numeric, [Cell.num 1, Cell.num (-2)]⟩,
        ⟨"b", ColType.text, [Cell.str "x y", Cell.str "q\"z,w"]⟩] := by
  refine claim_C8 _ 2 (fun h => List.noConfusion h) (by norm_num) (by decide) ?_
  intro c hc
  rcases List.mem_cons.mp hc with rfl | hc2
  · refine ⟨rfl, by decide, by decide, Or.inl ⟨rfl, ?_⟩⟩
    intro x hx
    rcases List.mem_cons.mp hx with rfl | hx2
    · exact ⟨1, rfl, by decide⟩
    rcases List.mem_cons.mp hx2 with rfl | hx3
    · exact ⟨-2, rfl, by decide⟩
    · exact absurd hx3 (List.not_mem_nil x)
  rcases List.mem_cons.mp hc2 with rfl | hc3
  · refine ⟨rfl, by decide, by decide, Or.inr ⟨rfl, ?_⟩⟩
    intro x hx
    rcases List.mem_cons.mp hx with rfl | hx2
    · exact ⟨"x y", rfl, by decide, by decide, by decide, by decide, by decide⟩
    rcases List.mem_cons.mp hx2 with rfl | hx3
    · exact ⟨"q\"z,w", rfl, by decide, by decide, by decide, by decide,
        by decide⟩
    · exact absurd hx3 (List.not_mem_nil x)
  · exact absurd hc3 (List.not_mem_nil c)

/-- Counterexample to **C8** as stated: the single text cell `"NA"` — a
non-null value in a text column — is written as the bare field `NA`, which
`read_csv` reads back as a null in a re-inferred numeric column, so the
reloaded table differs cell-for-cell (and in dtype) from the original. -/

theorem claim_C8_counterexample :
    toCsv [⟨"c", ColType.text, [Cell.str "NA"]⟩] = "c\nNA\n".data ∧
    csvParse "c\nNA\n".data =
      Except.ok [⟨"c", ColType.numeric, [Cell.null]⟩] ∧
    ¬([(⟨"c", ColType.numeric, [Cell.null]⟩ : Column)] =
      [⟨"c", ColType.text, [Cell.str "NA"]⟩]) := by
  refine ⟨rfl, ?_, by decide⟩
  have hh : parseFields [] ['c'] = [['c']] :=
    parseFields_joinComma [['c']] (fun h => List.noConfusion h)
  have hd : parseFields [] ['N', 'A'] = [['N', 'A']] :=
    parseFields_joinComma [['N', 'A']] (fun h => List.noConfusion h)
  rw [csvParse_cons ['c'] [['N', 'A']] "c\nNA\n".data rfl]
  simp only [List.map_cons, List.map_nil]
  rw [hh, hd]
  rfl

/-- **C4** (confirmed).  A failed load — malformed bytes in the upload
branch, a file name matching no supported extension (the `NameError` at
`df.copy()`), or a failed sample fetch — surfaces exactly one `LoadError`
to the caller and leaves the session state (current table and action log)
unchanged; concretely, empty CSV bytes fail with `EmptyDataError`. -/

theorem claim_C4 (excelP jsonP : List Char → Except LoadError Table)
    (st : SessionState) (name which : String) (content : List Char)
    (e : LoadError) :
    (parseUpload excelP jsonP name content = Except.error e →
      uploadStep excelP jsonP st name content = (st, some e)) ∧
    sampleStep st which (Except.error e) = (st, some e) ∧
    csvParse [] = Except.error LoadError.emptyData ∧
    (endsWithChars name.data ".csv".data = false →
      endsWithChars name.data ".xlsx".data = false →
      endsWithChars name.data ".json".data = false →
      parseUpload excelP jsonP name content =
        Except.error LoadError.unsupported) := by
  refine ⟨?_, rfl, rfl, ?_⟩
  · intro hp
    rw [uploadStep, hp]
  · intro h1 h2 h3
    rw [parseUpload, if_neg (fun h => Bool.noConfusion (h1 ▸ h)),
      if_neg (fun h => Bool.noConfusion (h2 ▸ h)),
      if_neg (fun h => Bool.noConfusion (h3 ▸ h))]

/-- Witness for `claim_C4`: an uploaded empty `.csv` file fails with
`EmptyDataError` and the session state (a loaded table and one log entry)
is unchanged; a failed sample fetch behaves likewise; an uploaded `.txt`
name is unsupported. -/

theorem claim_C4_witness :
    uploadStep (fun _ => Except.error LoadError.malformed)
      (fun _ => Except.error LoadError.malformed)
      ⟨some [⟨"a", ColType.numeric, [Cell.num 1]⟩], ["2024-01-01 00:00:00 - x"]⟩
      "data.csv" [] =
      (⟨some [⟨"a", ColType.numeric, [Cell.num 1]⟩],
        ["2024-01-01 00:00:00 - x"]⟩, some LoadError.emptyData) ∧
    sampleStep ⟨none, []⟩ "Titanic" (Except.error LoadError.malformed) =
      (⟨none, []⟩, some LoadError.malformed) ∧
    parseUpload (fun _ => Except.error LoadError.malformed)
      (fun _ => Except.error LoadError.malformed) "data.txt" [] =
      Except.error LoadError.unsupported := by
  refine ⟨?_, ?_, ?_⟩
  · exact (claim_C4 (fun _ => Except.error LoadError.malformed)
      (fun _ => Except.error LoadError.malformed)
      ⟨some [⟨"a", ColType.numeric, [Cell.num 1]⟩], ["2024-01-01 00:00:00 - x"]⟩
      "data.csv" "Titanic" [] LoadError.emptyData).1 rfl
  · exact (claim_C4 (fun _ => Except.error LoadError.malformed)
      (fun _ => Except.error LoadError.malformed) ⟨none, []⟩
      "data.csv" "Titanic" [] LoadError.malformed).2.1
  · exact (claim_C4 (fun _ => Except.error LoadError.malformed)
      (fun _ => Except.error LoadError.malformed) ⟨none, []⟩
      "data.txt" "Titanic" [] LoadError.malformed).2.2.2 (by decide) (by decide)
      (by decide)

/-- **C5** (confirmed).  Deduplication is idempotent, its result contains no
two equal rows, survivors keep their relative order from the input
(`Sublist`), and the result is exactly the spec's first-occurrence-keeping
traversal. -/

theorem claim_C5 (rows : List Row) :
    dedupe (dedupe rows) = dedupe rows ∧ (dedupe rows).Nodup ∧
    (dedupe rows).Sublist rows ∧ dedupe rows = firstOccurKeep rows :=
  ⟨dedupe_idem rows, dedupe_nodup rows, dedupe_sublist rows, dedupe_eq_firstOccurKeep rows⟩

end DataSweeper
